import Mathlib

/-!
# Verification of the `copy-github-to-github` mirroring tool

This file gives a shallow embedding of the core of the Go program
`copy-github-to-github` (file `main.go`): the URL resolver (`listRepos`),
the repository lister's pagination loop (`listReposForOrg`), the target
mapper (`rewriteURL`), the mirror operation's error normalisation (`copy`),
and the run loop of `main`, together with theorems settling the spec's
claims about them.

Go strings are byte strings, so strings are modelled as `List (Fin 256)`.
The relevant parts of Go's standard `net/url` package (`Parse`,
`URL.String`, `URL.Hostname`, percent escaping) and of `strings`/`path`
are translated function by function, since the program's behaviour on URLs
is decided by them.  Loops are translated as structural recursions;
external collaborators (the GitHub API client, go-git) are modelled as
explicit inputs describing their responses.
-/

namespace CopyGH

/-- A Go byte. -/
abbrev Byte := Fin 256

/-- A Go string: a list of bytes. -/
abbrev Str := List Byte

/-- Byte from a natural number (reduced mod 256). -/
def chN (n : Nat) : Byte := Fin.ofNat n

/-- Byte of an ASCII character. -/
def ch (c : Char) : Byte := chN c.toNat

/-- UTF-8 encoding of one character, as Go string literals store them. -/
def utf8Bytes (c : Char) : List Byte :=
  let n := c.toNat
  if n < 0x80 then [chN n]
  else if n < 0x800 then [chN (0xC0 + n / 64), chN (0x80 + n % 64)]
  else if n < 0x10000 then
    [chN (0xE0 + n / 4096), chN (0x80 + (n / 64) % 64), chN (0x80 + n % 64)]
  else
    [chN (0xF0 + n / 262144), chN (0x80 + (n / 4096) % 64),
     chN (0x80 + (n / 64) % 64), chN (0x80 + n % 64)]

/-- A Go string literal, as its UTF-8 bytes. -/
def gostr (s : String) : Str := s.data.flatMap utf8Bytes

/-- `strings.Trim(s, cutset)` for a single-byte cutset: drop leading and
trailing occurrences of `b`. -/
def goTrim (s : Str) (b : Byte) : Str :=
  ((s.dropWhile (· = b)).reverse.dropWhile (· = b)).reverse

/-- `strings.Split(s, sep)` for a single-byte separator: the substrings
between consecutive separators (`[""]` for the empty string). -/
def goSplit : Str → Byte → List Str
  | [], _ => [[]]
  | c :: r, b =>
    if c = b then [] :: goSplit r b
    else
      match goSplit r b with
      | [] => [[c]]
      | h :: t => (c :: h) :: t

/-- `strings.Join(elems, sep)` for a single-byte separator. -/
def goJoin : List Str → Byte → Str
  | [], _ => []
  | [x], _ => x
  | x :: xs, b => x ++ b :: goJoin xs b

/-- ASCII lower-casing of a byte, as `strings.ToLower` acts on ASCII
letters.  (Go's `strings.ToLower` additionally folds non-ASCII Unicode
letters; the program only compares against the ASCII literal
`"github.com"`, for which the ASCII folding is the relevant part.) -/
def lowerByte (c : Byte) : Byte :=
  if 65 ≤ c.val ∧ c.val ≤ 90 then chN (c.val + 32) else c

/-- ASCII model of `strings.ToLower`. -/
def asciiLower (s : Str) : Str := s.map lowerByte

/-- First occurrence of the byte sequence `pat` in `s` (`strings.Index`). -/
def idxOfSeq : Str → Str → Option Nat
  | s, pat =>
    match s with
    | [] => if pat = [] then some 0 else none
    | c :: r =>
      if pat.isPrefixOf (c :: r) then some 0
      else (idxOfSeq r pat).map (· + 1)

/-- Whether `pat` occurs inside `s` (`strings.Contains`). -/
def seqContains (s pat : Str) : Bool := (idxOfSeq s pat).isSome

/-- Last occurrence of byte `b` in `s` (`strings.LastIndex` with a
one-byte pattern), as an index from the front. -/
def lastIdxOfByte (s : Str) (b : Byte) : Option Nat :=
  match s.reverse.indexOf? b with
  | none => none
  | some j => some (s.length - 1 - j)

/-- Go's internal `split(s, c, true)` from `net/url`: cut at the first
occurrence of byte `b`, consuming it; `(s, "")` if absent. -/
def cutByte : Str → Byte → Str × Str
  | [], _ => ([], [])
  | c :: r, b =>
    if c = b then ([], r)
    else
      let p := cutByte r b
      (c :: p.1, p.2)

/-! ## The `net/url` model -/

/-- The escaping contexts of `net/url`. -/
inductive Enc where
  | path
  | pathSegment
  | host
  | zone
  | userPassword
  | queryComponent
  | fragment
deriving DecidableEq

/-- ASCII letter byte. -/
def isAlphaB (c : Byte) : Bool :=
  (97 ≤ c.val ∧ c.val ≤ 122) ∨ (65 ≤ c.val ∧ c.val ≤ 90)

/-- ASCII digit byte. -/
def isDigitB (c : Byte) : Bool := 48 ≤ c.val ∧ c.val ≤ 57

/-- `net/url.shouldEscape`, byte for byte. -/
def shouldEscape (c : Byte) (mode : Enc) : Bool :=
  if isAlphaB c ∨ isDigitB c then false
  else if (mode = .host ∨ mode = .zone) ∧
      c ∈ [ch '!', ch '$', ch '&', ch '\'', ch '(', ch ')', ch '*', ch '+',
           ch ',', ch ';', ch '=', ch ':', ch '[', ch ']', ch '<', ch '>',
           ch '"'] then false
  else if c ∈ [ch '-', ch '_', ch '.', ch '~'] then false
  else if c ∈ [ch '$', ch '&', ch '+', ch ',', ch '/', ch ':', ch ';',
               ch '=', ch '?', ch '@'] then
    match mode with
    | .path => c = ch '?'
    | .pathSegment => c = ch '/' ∨ c = ch ';' ∨ c = ch ',' ∨ c = ch '?'
    | .userPassword => c = ch '@' ∨ c = ch '/' ∨ c = ch '?' ∨ c = ch ':'
    | .queryComponent => true
    | .fragment => false
    | _ => true
  else if mode = .fragment ∧ c ∈ [ch '!', ch '(', ch ')', ch '*'] then false
  else true

/-- Hex digit test (`net/url.ishex`). -/
def ishex (c : Byte) : Bool :=
  (48 ≤ c.val ∧ c.val ≤ 57) ∨ (97 ≤ c.val ∧ c.val ≤ 102) ∨
    (65 ≤ c.val ∧ c.val ≤ 70)

/-- Hex digit value (`net/url.unhex`). -/
def unhex (c : Byte) : Nat :=
  if 48 ≤ c.val ∧ c.val ≤ 57 then c.val - 48
  else if 97 ≤ c.val ∧ c.val ≤ 102 then c.val - 97 + 10
  else if 65 ≤ c.val ∧ c.val ≤ 70 then c.val - 65 + 10
  else 0

/-- Upper-case hex digit of a value `< 16` (`upperhex[...]`). -/
def hexUp (n : Nat) : Byte :=
  if n < 10 then chN (48 + n) else chN (65 + (n - 10))

/-- The escaping of one byte performed inside `net/url.escape`. -/
def encByte (c : Byte) (mode : Enc) : Str :=
  if c = ch ' ' ∧ mode = .queryComponent then [ch '+']
  else if shouldEscape c mode then [ch '%', hexUp (c.val / 16), hexUp (c.val % 16)]
  else [c]

/-- `net/url.escape`, functionally (the Go code builds the same string
with a counted buffer). -/
def escapeStr : Str → Enc → Str
  | [], _ => []
  | c :: r, mode => encByte c mode ++ escapeStr r mode

/-- `net/url.unescape`.  Error values carry no payload beyond a message;
we record the offending text to stay close to `EscapeError` /
`InvalidHostError`. -/
def unescape : Str → Enc → Except Str Str
  | [], _ => .ok []
  | c :: rest, mode =>
    if c = ch '%' then
      match rest with
      | a :: b :: rest2 =>
        if ishex a ∧ ishex b then
          if mode = .host ∧ unhex a < 8 ∧ ¬(a = ch '2' ∧ b = ch '5') then
            .error (gostr "invalid URL escape " ++ [c, a, b])
          else if mode = .zone ∧ ¬(a = ch '2' ∧ b = ch '5') ∧
              chN (unhex a * 16 + unhex b) ≠ ch ' ' ∧
              shouldEscape (chN (unhex a * 16 + unhex b)) .host then
            .error (gostr "invalid URL escape " ++ [c, a, b])
          else
            match unescape rest2 mode with
            | .error e => .error e
            | .ok t => .ok (chN (unhex a * 16 + unhex b) :: t)
        else .error (gostr "invalid URL escape " ++ (c :: (a :: b :: rest2).take 2))
      | _ => .error (gostr "invalid URL escape " ++ (c :: rest).take 3)
    else if c = ch '+' then
      match unescape rest mode with
      | .error e => .error e
      | .ok t => .ok ((if mode = .queryComponent then ch ' ' else ch '+') :: t)
    else if (mode = .host ∨ mode = .zone) ∧ c.val < 0x80 ∧ shouldEscape c mode then
      .error (gostr "invalid character " ++ [c] ++ gostr " in host name")
    else
      match unescape rest mode with
      | .error e => .error e
      | .ok t => .ok (c :: t)

/-- `net/url.validEncoded`. -/
def validEncoded (s : Str) (mode : Enc) : Bool :=
  s.all fun c =>
    if c ∈ [ch '!', ch '$', ch '&', ch '\'', ch '(', ch ')', ch '*', ch '+',
            ch ',', ch ';', ch '=', ch ':', ch '@', ch '[', ch ']', ch '%']
    then true
    else ¬ shouldEscape c mode

/-- `net/url.validOptionalPort`. -/
def validOptionalPort (port : Str) : Bool :=
  match port with
  | [] => true
  | c :: rest => c = ch ':' ∧ rest.all isDigitB

/-- `net/url.validUserinfo`, on bytes (non-ASCII runes fail in Go, and
every byte of their UTF-8 encoding fails here). -/
def validUserinfo (s : Str) : Bool :=
  s.all fun c =>
    isAlphaB c ∨ isDigitB c ∨
      c ∈ [ch '-', ch '.', ch '_', ch ':', ch '~', ch '!', ch '$', ch '&',
           ch '\'', ch '(', ch ')', ch '*', ch '+', ch ',', ch ';', ch '=',
           ch '%', ch '@']

/-- `net/url.parseHost`. -/
def parseHost (host : Str) : Except Str Str :=
  if host.head? = some (ch '[') then
    match lastIdxOfByte host (ch ']') with
    | none => .error (gostr "missing ']' in host")
    | some i =>
      let colonPort := host.drop (i + 1)
      if ¬ validOptionalPort colonPort then
        .error (gostr "invalid port after host")
      else
        match idxOfSeq (host.take i) (gostr "%25") with
        | some z =>
          match unescape (host.take z) .host with
          | .error e => .error e
          | .ok h1 =>
            match unescape ((host.take i).drop z) .zone with
            | .error e => .error e
            | .ok h2 =>
              match unescape (host.drop i) .host with
              | .error e => .error e
              | .ok h3 => .ok (h1 ++ h2 ++ h3)
        | none => unescape host .host
  else
    match lastIdxOfByte host (ch ':') with
    | some i =>
      if ¬ validOptionalPort (host.drop i) then
        .error (gostr "invalid port after host")
      else unescape host .host
    | none => unescape host .host

/-- Userinfo: user name and optional password (`url.User` /
`url.UserPassword`). -/
structure UserInfo where
  username : Str
  password : Option Str
deriving DecidableEq

/-- `net/url.parseAuthority`. -/
def parseAuthority (authority : Str) : Except Str (Option UserInfo × Str) :=
  match lastIdxOfByte authority (ch '@') with
  | none =>
    match parseHost authority with
    | .error e => .error e
    | .ok h => .ok (none, h)
  | some i =>
    match parseHost (authority.drop (i + 1)) with
    | .error e => .error e
    | .ok h =>
      let userinfo := authority.take i
      if ¬ validUserinfo userinfo then .error (gostr "invalid userinfo")
      else if ¬ seqContains userinfo [ch ':'] then
        match unescape userinfo .userPassword with
        | .error e => .error e
        | .ok u => .ok (some ⟨u, none⟩, h)
      else
        let cut := cutByte userinfo (ch ':')
        match unescape cut.1 .userPassword with
        | .error e => .error e
        | .ok un =>
          match unescape cut.2 .userPassword with
          | .error e => .error e
          | .ok pw => .ok (some ⟨un, some pw⟩, h)

/-- The loop of `net/url.getScheme`: `orig` is the full string, `i` the
current index, `rest` the bytes from `i` on. -/
def gsLoop (orig : Str) (i : Nat) : Str → Except Str (Str × Str)
  | [] => .ok ([], orig)
  | c :: cs =>
    if isAlphaB c then gsLoop orig (i + 1) cs
    else if isDigitB c ∨ c = ch '+' ∨ c = ch '-' ∨ c = ch '.' then
      if i = 0 then .ok ([], orig) else gsLoop orig (i + 1) cs
    else if c = ch ':' then
      if i = 0 then .error (gostr "missing protocol scheme")
      else .ok (orig.take i, orig.drop (i + 1))
    else .ok ([], orig)

/-- `net/url.getScheme`. -/
def getSchemeGo (rawURL : Str) : Except Str (Str × Str) :=
  gsLoop rawURL 0 rawURL

/-- `net/url.stringContainsCTLByte`. -/
def containsCTL (s : Str) : Bool := s.any fun c => c.val < 0x20 ∨ c.val = 0x7F

/-- The record `net/url.URL` (the fields the program can reach). -/
structure GoURL where
  scheme : Str := []
  opq : Str := []
  user : Option UserInfo := none
  host : Str := []
  path : Str := []
  rawPath : Str := []
  omitHost : Bool := false
  forceQuery : Bool := false
  rawQuery : Str := []
  fragment : Str := []
  rawFragment : Str := []
deriving DecidableEq

/-- `URL.setPath`: returns the `Path` and `RawPath` fields. -/
def setPathParts (p : Str) : Except Str (Str × Str) :=
  match unescape p .path with
  | .error e => .error e
  | .ok path => .ok (path, if escapeStr path .path = p then [] else p)

/-- The body of `net/url.parse` with `viaRequest = false` (fragment
already split off by `Parse`). -/
def parseInner (rawURL : Str) : Except Str GoURL :=
  if containsCTL rawURL then .error (gostr "invalid control character in URL")
  else if rawURL = [ch '*'] then .ok { path := [ch '*'] }
  else
    match getSchemeGo rawURL with
    | .error e => .error e
    | .ok (scheme0, rest0) =>
      let scheme := asciiLower scheme0
      let qsplit : Str × Bool × Str :=
        if rest0.getLast? = some (ch '?') ∧ ¬ seqContains rest0.dropLast [ch '?']
        then (rest0.dropLast, true, [])
        else
          let p := cutByte rest0 (ch '?')
          (p.1, false, p.2)
      let rest1 := qsplit.1
      let forceQuery := qsplit.2.1
      let rawQuery := qsplit.2.2
      if rest1.head? ≠ some (ch '/') ∧ scheme ≠ [] then
        .ok { scheme := scheme, opq := rest1, forceQuery := forceQuery,
              rawQuery := rawQuery }
      else if rest1.head? ≠ some (ch '/') ∧ scheme = [] ∧
          seqContains (cutByte rest1 (ch '/')).1 [ch ':'] then
        .error (gostr "first path segment in URL cannot contain colon")
      else
        if (scheme ≠ [] ∨ ¬ (gostr "///").isPrefixOf rest1) ∧
            (gostr "//").isPrefixOf rest1 then
          let afterSlashes := rest1.drop 2
          let asplit : Str × Str :=
            match idxOfSeq afterSlashes [ch '/'] with
            | some i => (afterSlashes.take i, afterSlashes.drop i)
            | none => (afterSlashes, [])
          match parseAuthority asplit.1 with
          | .error e => .error e
          | .ok (user, host) =>
            match setPathParts asplit.2 with
            | .error e => .error e
            | .ok (path, rawPath) =>
              .ok { scheme := scheme, user := user, host := host,
                    path := path, rawPath := rawPath,
                    forceQuery := forceQuery, rawQuery := rawQuery }
        else
          let omitH := scheme ≠ [] ∧ rest1.head? = some (ch '/')
          match setPathParts rest1 with
          | .error e => .error e
          | .ok (path, rawPath) =>
            .ok { scheme := scheme, path := path, rawPath := rawPath,
                  omitHost := omitH, forceQuery := forceQuery,
                  rawQuery := rawQuery }

/-- `net/url.Parse`: split the fragment, parse, set the fragment. -/
def goParseURL (rawURL : Str) : Except Str GoURL :=
  let fsplit := cutByte rawURL (ch '#')
  match parseInner fsplit.1 with
  | .error e => .error e
  | .ok u =>
    if fsplit.2 = [] then .ok u
    else
      match unescape fsplit.2 .fragment with
      | .error e => .error e
      | .ok f =>
        .ok { u with fragment := f,
                     rawFragment :=
                       if escapeStr f .fragment = fsplit.2 then [] else fsplit.2 }

instance {ε α : Type} [DecidableEq ε] [DecidableEq α] : DecidableEq (Except ε α) := fun x y =>
  match x, y with
  | .error a, .error b =>
    if h : a = b then .isTrue (by rw [h]) else .isFalse (by simp [h])
  | .ok a, .ok b =>
    if h : a = b then .isTrue (by rw [h]) else .isFalse (by simp [h])
  | .error _, .ok _ => .isFalse (by simp)
  | .ok _, .error _ => .isFalse (by simp)

/-- `URL.EscapedPath`. -/
def escapedPath (u : GoURL) : Str :=
  if u.rawPath ≠ [] ∧ validEncoded u.rawPath .path ∧
      unescape u.rawPath .path = .ok u.path then u.rawPath
  else if u.path = [ch '*'] then [ch '*']
  else escapeStr u.path .path

/-- `URL.EscapedFragment`. -/
def escapedFragment (u : GoURL) : Str :=
  if u.rawFragment ≠ [] ∧ validEncoded u.rawFragment .fragment ∧
      unescape u.rawFragment .fragment = .ok u.fragment then u.rawFragment
  else escapeStr u.fragment .fragment

/-- `Userinfo.String`. -/
def userInfoString (ui : UserInfo) : Str :=
  escapeStr ui.username .userPassword ++
    match ui.password with
    | none => []
    | some pw => ch ':' :: escapeStr pw .userPassword

/-- `URL.String`. -/
def urlString (u : GoURL) : Str :=
  let schemePart : Str := if u.scheme ≠ [] then u.scheme ++ [ch ':'] else []
  let queryPart : Str :=
    if u.forceQuery ∨ u.rawQuery ≠ [] then ch '?' :: u.rawQuery else []
  let fragPart : Str :=
    if u.fragment ≠ [] then ch '#' :: escapedFragment u else []
  if u.opq ≠ [] then schemePart ++ u.opq ++ queryPart ++ fragPart
  else
    let auth : Str :=
      if u.scheme ≠ [] ∨ u.host ≠ [] ∨ u.user.isSome then
        if u.omitHost ∧ u.host = [] ∧ u.user = none then []
        else
          (if u.host ≠ [] ∨ u.path ≠ [] ∨ u.user.isSome then gostr "//" else []) ++
            (match u.user with
             | some ui => userInfoString ui ++ [ch '@']
             | none => []) ++
            (if u.host ≠ [] then escapeStr u.host .host else [])
      else []
    let p := escapedPath u
    let slashIns : Str :=
      if p ≠ [] ∧ p.head? ≠ some (ch '/') ∧ u.host ≠ [] then [ch '/'] else []
    let pre := schemePart ++ auth ++ slashIns
    let dotSlash : Str :=
      if pre = [] ∧ seqContains (cutByte p (ch '/')).1 [ch ':'] then gostr "./"
      else []
    pre ++ dotSlash ++ p ++ queryPart ++ fragPart

/-- `net/url.splitHostPort` (used by `Hostname`). -/
def splitHostPort (hostPort : Str) : Str × Str :=
  let hp :=
    match lastIdxOfByte hostPort (ch ':') with
    | some i =>
      if validOptionalPort (hostPort.drop i) then
        (hostPort.take i, hostPort.drop (i + 1))
      else (hostPort, [])
    | none => (hostPort, [])
  if hp.1.head? = some (ch '[') ∧ hp.1.getLast? = some (ch ']') then
    ((hp.1.drop 1).dropLast, hp.2)
  else hp

/-- `URL.Hostname`. -/
def hostname (u : GoURL) : Str := (splitHostPort u.host).1

/-! ## The program model (`main.go`) -/

/-- The program's `Repo` struct. -/
structure Repo where
  name : Str
  url : Str
deriving DecidableEq

/-- `rewriteURL(r, tgt)`: parse the target URL, take the first segment of
its slash-trimmed path as the organization, and rebuild
`scheme://host/org/{r.Name}`. -/
def rewriteURL (r : Repo) (tgt : Str) : Except Str Str :=
  match goParseURL tgt with
  | .error e => .error (gostr "failed to parse target URL: " ++ e)
  | .ok tgtURL =>
    let org := (goSplit (goTrim tgtURL.path (ch '/')) (ch '/')).headD []
    let p := ch '/' :: goJoin [org, r.name] (ch '/')
    .ok (urlString { scheme := tgtURL.scheme, host := tgtURL.host,
                     path := p, rawPath := p })

/-- What `listRepos` decides to do with the source URL: delegate to
`listReposForOrg` (one path segment), produce the single repository
directly (two segments), or fail. -/
inductive ResolveResult where
  | orgList (u : GoURL)
  | single (r : Repo)
  | err (msg : Str)
deriving DecidableEq

/-- The branching of `listRepos(ctx, ghURL, token)`.  The actual call to
`listReposForOrg` in the one-segment case is represented by the
`orgList` constructor carrying the parsed URL that is passed on. -/
def listRepos (ghURL : Str) : ResolveResult :=
  match goParseURL ghURL with
  | .error e => .err (gostr "failed to parse url: " ++ e)
  | .ok u =>
    let segments := goSplit (goTrim u.path (ch '/')) (ch '/')
    if segments.length = 1 then .orgList u
    else if segments.length > 2 then
      .err (gostr "unexpected number of path segments in URL, expected /<org> or /<org>/<repo>, got " ++ ghURL)
    else .single ⟨segments.getD 1 [], ghURL⟩

/-- Whether `(listRepos ...)` is the error case. -/
def ResolveResult.isErr : ResolveResult → Bool
  | .err _ => true
  | _ => false

/-- One repository as reported by the GitHub API (`GetName` and
`GetHTMLURL` of a response item; the getters return `""` for absent
fields, so plain strings model them). -/
structure ApiRepo where
  name : Str
  htmlURL : Str
deriving DecidableEq

/-- One `ListByOrg` request issued by `listReposForOrg`: the options the
program fills in. -/
structure ListReq where
  org : Str
  sort : Str
  direction : Str
  page : Nat
  perPage : Nat
deriving DecidableEq

/-- The request `listReposForOrg` sends for page `i` of organization
`org`. -/
def mkListReq (org : Str) (i : Nat) : ListReq :=
  { org := org, sort := gostr "updated", direction := gostr "desc",
    page := i, perPage := 100 }

/-- The pagination loop of `listReposForOrg`.  The external API is
modelled by the finite list `pages`: the response to the request for page
`idx + k` is `pages[k]`, and every page past the end of the list is
empty (which is how a finite organization listing answers).  Returns the
requests issued in order and the accumulated repositories. -/
def listReposForOrg (org : Str) : List (List ApiRepo) → Nat → List ListReq × List Repo
  | [], idx => ([mkListReq org idx], [])
  | p :: rest, idx =>
    if p = [] then ([mkListReq org idx], [])
    else
      let t := listReposForOrg org rest (idx + 1)
      (mkListReq org idx :: t.1,
       p.map (fun rr => ⟨rr.name, rr.htmlURL⟩) ++ t.2)

/-- Where API calls are routed: the public github.com endpoints, or an
enterprise base URL (`WithEnterpriseURLs` receives it for both the API
and the upload endpoint). -/
inductive Route where
  | publicAPI
  | enterprise (base : Str)
deriving DecidableEq

/-- The endpoint decision of `listReposForOrg` (lines
`host := strings.ToLower(ghURL.Hostname()); if host != "github.com"`). -/
def listerRoute (u : GoURL) : Route :=
  let host := asciiLower (hostname u)
  if host ≠ gostr "github.com" then
    .enterprise (u.scheme ++ gostr "://" ++ host)
  else .publicAPI

/-- The endpoint decision of `copy` (lines
`host := strings.ToLower(u.Hostname()); if host != "github.com"`),
translated independently from its own occurrence in the source. -/
def copyRoute (u : GoURL) : Route :=
  let host := asciiLower (hostname u)
  if host ≠ gostr "github.com" then
    .enterprise (u.scheme ++ gostr "://" ++ host)
  else .publicAPI

/-- Outcome of `repo.Push` as `copy` can observe it: no error, the
sentinel `git.NoErrAlreadyUpToDate`, or any other error. -/
inductive PushOutcome where
  | ok
  | alreadyUpToDate
  | err (msg : Str)
deriving DecidableEq

/-- The external effects `copy` performs, as their observable results:
temp-dir creation, clone, `WithEnterpriseURLs`, `Repositories.Create`
(its error message, if any), and `repo.Push`. -/
structure CopyEnv where
  mkdirErr : Option Str := none
  cloneErr : Option Str := none
  enterpriseErr : Option Str := none
  createErr : Option Str := none
  push : PushOutcome := .ok
deriving DecidableEq

/-- `copy(ctx, srcAccessToken, src, tgtAccessToken, tgt, tgtVisibility)`:
the error-handling skeleton.  Each external call is consulted in source
order; the create error is ignored when its message contains
`"name already exists on this account"`, and a push result of
`git.NoErrAlreadyUpToDate` is not an error. -/
def copyGo (env : CopyEnv) (tgt : Str) : Except Str Unit :=
  match env.mkdirErr with
  | some e => .error (gostr "failed to create temp directory: " ++ e)
  | none =>
  match env.cloneErr with
  | some e => .error (gostr "failed to clone: " ++ e)
  | none =>
  match goParseURL tgt with
  | .error e => .error (gostr "failed to parse url: " ++ e)
  | .ok u =>
  match (match copyRoute u with
         | .enterprise _ => env.enterpriseErr
         | .publicAPI => none) with
  | some e => .error (gostr "failed to set enterprise domain: " ++ e)
  | none =>
  match env.createErr with
  | some e =>
    if ¬ seqContains e (gostr "name already exists on this account") then
      .error (gostr "failed to create target repo: " ++ e)
    else
      match env.push with
      | .err e' => .error (gostr "failed to push to target: " ++ e')
      | _ => .ok ()
  | none =>
    match env.push with
    | .err e' => .error (gostr "failed to push to target: " ++ e')
    | _ => .ok ()

/-- The state of the destination repository between runs: whether it
exists on the target host, and whether it already holds everything the
source has. -/
structure TargetState where
  existsOnTarget : Bool
  upToDate : Bool
deriving DecidableEq

/-- Modelled from the spec: the GitHub create-repository API fails with a
message containing `"name already exists on this account"` exactly when
the repository already exists (§4.4 step 4 treats that failure as the
"already exists" case). -/
def apiCreate (w : TargetState) : Option Str :=
  if w.existsOnTarget then
    some (gostr "POST: 422 name already exists on this account")
  else none

/-- Modelled from the spec: a mirror push reports
`git.NoErrAlreadyUpToDate` exactly when the target already has
everything (§4.4 step 5), and otherwise succeeds in this error-free
scenario. -/
def apiPush (w : TargetState) : PushOutcome :=
  if w.upToDate then .alreadyUpToDate else .ok

/-- The target state after a successful mirror pass with no intervening
source changes: the repository exists and is up to date. -/
def afterMirror : TargetState := ⟨true, true⟩

/-- The copy environment a run against target state `w` produces when
the staging, clone and endpoint steps succeed. -/
def envOf (w : TargetState) : CopyEnv :=
  { createErr := apiCreate w, push := apiPush w }

/-! ## The run loop of `main` -/

/-- Decimal rendering of a number (`fmt`'s `%d`). -/
def natToStr (n : Nat) : Str := gostr (Nat.repr n)

/-- Lower-case hex digit of a value `< 16`. -/
def hexLow (n : Nat) : Byte :=
  if n < 10 then chN (48 + n) else chN (97 + (n - 10))

/-- `fmt`'s `%q` on one byte: printable ASCII passes (with `"` and `\`
escaped), everything else becomes a `\xNN` escape. -/
def quoteByte (c : Byte) : Str :=
  if c = ch '"' then [ch '\\', ch '"']
  else if c = ch '\\' then [ch '\\', ch '\\']
  else if 0x20 ≤ c.val ∧ c.val < 0x7F then [c]
  else [ch '\\', ch 'x', hexLow (c.val / 16), hexLow (c.val % 16)]

/-- `fmt`'s `%q` on a string (byte-wise model). -/
def goQuote (s : Str) : Str := ch '"' :: s.flatMap quoteByte ++ [ch '"']

/-- One observable step of `main`: a line written to standard output, an
invocation of `copy` with its exact arguments, `os.Exit(1)`, or the
normal return at the end of `main`. -/
inductive Ev where
  | out (s : Str)
  | copyCall (srcTok srcURL tgtTok tgtURL vis : Str)
  | exit1
  | done
deriving DecidableEq

/-- The inner `for _, repo := range repos` loop of `main`: rewrite the
URL, print, call `copy`, and exit the process on the first error.
`envs i` gives the external outcomes for the `i`-th repository's `copy`.
Returns the events and whether the process exited. -/
def copyLoop (tgtURL srcTok tgtTok vis : Str) (envs : Nat → CopyEnv) :
    List Repo → Nat → List Ev × Bool
  | [], _ => ([], false)
  | r :: rest, i =>
    match rewriteURL r tgtURL with
    | .error e =>
      ([.out (gostr "Failed to rewrite URL " ++ goQuote r.url ++ gostr ": " ++
          e ++ gostr "\n"), .exit1], true)
    | .ok tgt =>
      match copyGo (envs i) tgt with
      | .error e =>
        ([.out (gostr "Copying " ++ goQuote r.url ++ gostr " to " ++
            goQuote tgt ++ gostr "...\n"),
          .copyCall srcTok r.url tgtTok tgt vis,
          .out (gostr "Failed to copy: " ++ e ++ gostr "\n"), .exit1], true)
      | .ok _ =>
        let t := copyLoop tgtURL srcTok tgtTok vis envs rest (i + 1)
        (.out (gostr "Copying " ++ goQuote r.url ++ gostr " to " ++
            goQuote tgt ++ gostr "...\n") ::
           .copyCall srcTok r.url tgtTok tgt vis :: t.1, t.2)

/-- One pass of the `loop:` in `main`: list, then mirror each repository.
`listOut` is the outcome of `listRepos` (an external API interaction in
the organization case). -/
def passTrace (srcURL tgtURL srcTok tgtTok vis : Str)
    (listOut : Except Str (List Repo)) (envs : Nat → CopyEnv) :
    List Ev × Bool :=
  let head := Ev.out (gostr "Listing repos for URL: " ++ srcURL ++ gostr "\n")
  match listOut with
  | .error e =>
    ([head, .out (gostr "Failed to list repos: " ++ e ++ gostr "\n"), .exit1],
     true)
  | .ok repos =>
    let t := copyLoop tgtURL srcTok tgtTok vis envs repos 0
    (head ::
       .out (gostr "Copying " ++ natToStr repos.length ++ gostr " repos.\n") ::
       t.1, t.2)

/-- The `loop:` of `main`.  `every` is the `-every` duration (`0` meaning
unset), `everyText` its rendering by `Duration.String`, `waits` the
successive outcomes of the `select` between `ctx.Done()` (`true`: the
SIGINT-triggered cancellation fired first) and the interval timer
(`false`); the trace is truncated if `waits` runs out.  `listOut p` and
`envs p i` give the external outcomes for pass `p`. -/
def loopGo (srcURL tgtURL srcTok tgtTok vis : Str)
    (listOut : Nat → Except Str (List Repo)) (envs : Nat → Nat → CopyEnv)
    (every : Nat) (everyText : Str) : Nat → List Bool → List Ev
  | passIdx, waits =>
    let p := passTrace srcURL tgtURL srcTok tgtTok vis (listOut passIdx)
      (envs passIdx)
    if p.2 then p.1
    else if every = 0 then p.1 ++ [.done]
    else
      p.1 ++ [.out (gostr "Process complete. Running again in " ++ everyText ++
        gostr ".\n")] ++
        match waits with
        | [] => []
        | w :: rest =>
          if w then [.out (gostr "Context closed.\n"), .done]
          else .out (gostr "Wait complete.\n") ::
            loopGo srcURL tgtURL srcTok tgtTok vis listOut envs every
              everyText (passIdx + 1) rest

/-- The whole post-validation behaviour of `main` in its normal mode. -/
def runMain (srcURL tgtURL srcTok tgtTok vis : Str)
    (listOut : Nat → Except Str (List Repo)) (envs : Nat → Nat → CopyEnv)
    (every : Nat) (everyText : Str) (waits : List Bool) : List Ev :=
  loopGo srcURL tgtURL srcTok tgtTok vis listOut envs every everyText 0 waits

/-- The lines of standard output in a trace. -/
def outLines : List Ev → List Str
  | [] => []
  | .out s :: t => s :: outLines t
  | _ :: t => outLines t

/-- Fuel-indexed body of `strings.Replace(s, old, new, -1)`; the fuel is
an upper bound on the length of `s`, so `goReplaceAll` below always runs
to completion. -/
def replaceAllF : Nat → Str → Str → Str → Str
  | 0, s, _, _ => s
  | fuel + 1, s, pat, rep =>
    match s with
    | [] => []
    | c :: r =>
      if pat ≠ [] ∧ pat.isPrefixOf (c :: r) then
        rep ++ replaceAllF fuel ((c :: r).drop pat.length) pat rep
      else c :: replaceAllF fuel r pat rep

/-- `strings.Replace(s, old, new, -1)` for a non-empty pattern (the
program only replaces the literal `"$CMD"`). -/
def goReplaceAll (s pat rep : Str) : Str := replaceAllF s.length s pat rep

/-- The command line `main` reconstructs in `-print-systemd-unit` mode.
`everyText` models `(*everyFlag).String()`. -/
def buildCmd (srcTok srcURL tgtTok tgtURL vis : Str) (every : Nat)
    (everyText : Str) : Str :=
  gostr "/usr/local/bin/copy-github-to-github" ++
    gostr " -src-token " ++ srcTok ++
    gostr " -src-url " ++ srcURL ++
    gostr " -tgt-token " ++ tgtTok ++
    gostr " -tgt-url " ++ tgtURL ++
    gostr " -tgt-visibility " ++ vis ++
    (if 0 < every then gostr " -every " ++ everyText else [])

/-- The `-print-systemd-unit` branch of `main`.  Modelled from the spec:
the embedded unit file `copy-github-to-github.service` is not among the
sources; §6 describes it as "a template with one substitution point for
the reconstructed command line", so it is an arbitrary parameter
`unitTemplate` in which every occurrence of `$CMD` is replaced. -/
def printSystemdUnit (unitTemplate srcTok srcURL tgtTok tgtURL vis : Str)
    (every : Nat) (everyText : Str) : Str :=
  goReplaceAll unitTemplate (gostr "$CMD")
    (buildCmd srcTok srcURL tgtTok tgtURL vis every everyText) ++ gostr "\n"

/-! ## Auxiliary notions used by the theorems -/

/-- Number of leading non-empty pages before the first empty page of a
modelled listing (every page past the end of the list is empty). -/
def leadPages : List (List ApiRepo) → Nat
  | [] => 0
  | p :: r => if p = [] then 0 else leadPages r + 1

/-- How many times a trace invokes `copy`. -/
def numCopyCalls : List Ev → Nat
  | [] => 0
  | .copyCall _ _ _ _ _ :: t => numCopyCalls t + 1
  | _ :: t => numCopyCalls t

/-- The trace `main` produces when, starting at pass `passIdx`, it runs
`k + 1` further passes whose waits all elapse except the last one, which
is cancelled: each pass runs in full, the completion line is printed, and
the wait outcome is consulted only between passes. -/
def passesThen (srcURL tgtURL srcTok tgtTok vis : Str)
    (listOut : Nat → Except Str (List Repo)) (envs : Nat → Nat → CopyEnv)
    (everyText : Str) : Nat → Nat → List Ev
  | passIdx, 0 =>
    (passTrace srcURL tgtURL srcTok tgtTok vis (listOut passIdx)
        (envs passIdx)).1 ++
      [.out (gostr "Process complete. Running again in " ++ everyText ++
         gostr ".\n"),
       .out (gostr "Context closed.\n"), .done]
  | passIdx, k + 1 =>
    (passTrace srcURL tgtURL srcTok tgtTok vis (listOut passIdx)
        (envs passIdx)).1 ++
      [.out (gostr "Process complete. Running again in " ++ everyText ++
         gostr ".\n"),
       .out (gostr "Wait complete.\n")] ++
      passesThen srcURL tgtURL srcTok tgtTok vis listOut envs everyText
        (passIdx + 1) k

/-- The URL record `rewriteURL` constructs before rendering it. -/
def mkRewriteURL (scheme host p : Str) : GoURL :=
  { scheme := scheme, host := host, path := p, rawPath := p }

/-- A byte `getScheme` accepts inside a scheme (letters everywhere,
digits and `+ - .` after the first byte). -/
def schemeCharB (c : Byte) : Bool :=
  isAlphaB c ∨ isDigitB c ∨ c = ch '+' ∨ c = ch '-' ∨ c = ch '.'

/-- The shape `Parse` guarantees for the scheme it stores: empty, or a
letter-led string of scheme bytes that is already lower-cased. -/
def SchemeOK (s : Str) : Prop :=
  s = [] ∨ ((∀ c ∈ s, schemeCharB c = true) ∧
    (∃ c s', s = c :: s' ∧ isAlphaB c = true) ∧ asciiLower s = s)

/-! ## Helper lemmas -/

theorem listReposForOrg_spec (org : Str) : ∀ (pages : List (List ApiRepo)) (idx : Nat),
    listReposForOrg org pages idx =
      ((List.range' idx (leadPages pages + 1)).map (mkListReq org),
       (pages.take (leadPages pages)).flatten.map
         fun rr => ({ name := rr.name, url := rr.htmlURL } : Repo)) := by
  intro pages
  induction pages with
  | nil => intro idx; simp [listReposForOrg, leadPages, List.range']
  | cons p rest ih =>
    intro idx
    by_cases hp : p = []
    · simp [listReposForOrg, leadPages, hp, List.range']
    · simp only [listReposForOrg, leadPages, hp, if_neg, ite_false, ih (idx + 1),
        List.range'_succ, List.map_cons, List.take_succ_cons, List.flatten_cons,
        List.map_append]

theorem c5_helper_route (u : GoURL) :
    copyRoute u = (if asciiLower (hostname u) = gostr "github.com"
      then Route.publicAPI
      else Route.enterprise (u.scheme ++ gostr "://" ++ asciiLower (hostname u))) := by
  by_cases h : asciiLower (hostname u) = gostr "github.com" <;>
    simp [copyRoute, h]

/-! ## Claim C4 -/

/-- C4.  `listReposForOrg` requests pages of up to 100 repositories
sorted by most-recently-updated descending (`sort = "updated"`,
`direction = "desc"`, `PerPage = 100`), with page indices strictly
increasing from 0 (`List.range`), stops at the first page that returns
zero items (`leadPages`), concatenates the results in the order received
with no re-sorting and no deduplication (`flatten` of the taken pages),
and takes each result's name and URL from the API response fields, not
from the input URL. -/
theorem c4_pagination (org : Str) (pages : List (List ApiRepo)) :
    listReposForOrg org pages 0 =
      ((List.range (leadPages pages + 1)).map (mkListReq org),
       (pages.take (leadPages pages)).flatten.map
         fun rr => ({ name := rr.name, url := rr.htmlURL } : Repo)) := by
  rw [listReposForOrg_spec org pages 0, List.range_eq_range']

/-! ## Claim C5 -/

/-- C5.  The host-routing decision: a hostname that ASCII-lower-cases to
`github.com` (i.e. is case-insensitively equal to it) routes to the
default public API endpoints, every other hostname routes to an
enterprise endpoint built from the URL's scheme and lower-cased
hostname; `listReposForOrg` (the Lister) and `copy` (the Mirror
Operation) make this decision by exactly the same logic. -/
theorem c5_host_routing (u : GoURL) :
    listerRoute u = copyRoute u ∧
    copyRoute u = (if asciiLower (hostname u) = gostr "github.com"
      then Route.publicAPI
      else Route.enterprise (u.scheme ++ gostr "://" ++ asciiLower (hostname u))) :=
  ⟨rfl, c5_helper_route u⟩

/-! ## Claim C7 -/

/-- C7.  In the mirror operation `copy`: a create failure whose message
contains `"name already exists on this account"` is treated exactly like
a successful create; a push outcome of `git.NoErrAlreadyUpToDate` is
treated exactly like a successful push; any other create error or push
error aborts this repository's mirror with an error; and a second run
against the same pair with no source changes (repository now existing
and up to date) succeeds just like the first. -/
theorem c7_mirror_idempotency :
    (∀ (env : CopyEnv) (tgt m : Str), env.createErr = some m →
        seqContains m (gostr "name already exists on this account") = true →
        copyGo env tgt = copyGo { env with createErr := none } tgt) ∧
    (∀ (env : CopyEnv) (tgt : Str), env.push = .alreadyUpToDate →
        copyGo env tgt = copyGo { env with push := .ok } tgt) ∧
    (∀ (m : Str) (p : PushOutcome) (tgt : Str) (u : GoURL),
        goParseURL tgt = .ok u →
        seqContains m (gostr "name already exists on this account") = false →
        copyGo { createErr := some m, push := p } tgt =
          .error (gostr "failed to create target repo: " ++ m)) ∧
    (∀ (e tgt : Str) (u : GoURL), goParseURL tgt = .ok u →
        copyGo { push := .err e } tgt =
          .error (gostr "failed to push to target: " ++ e)) ∧
    (∀ (tgt : Str) (u : GoURL), goParseURL tgt = .ok u →
        copyGo (envOf ⟨false, false⟩) tgt = .ok () ∧
        copyGo (envOf afterMirror) tgt = .ok ()) := by
  refine ⟨?_, ?_, ?_, ?_, ?_⟩
  · rintro ⟨mk, cl, ent, cr, pu⟩ tgt m hcr hcontains
    cases hcr
    cases mk <;> cases cl <;> simp only [copyGo] <;>
      cases hppp : goParseURL tgt <;> simp only [] <;>
      cases copyRoute _ <;> cases ent <;> simp [hcontains]
  · rintro ⟨mk, cl, ent, cr, pu⟩ tgt hpu
    cases hpu
    cases mk <;> cases cl <;> simp only [copyGo] <;>
      cases hppp : goParseURL tgt <;> simp only [] <;>
      cases copyRoute _ <;> cases ent <;> cases cr <;> simp
  · intro m p tgt u hu hm
    simp only [copyGo, hu]
    cases copyRoute u <;> simp [hm]
  · intro e tgt u hu
    simp only [copyGo, hu]
    cases copyRoute u <;> simp
  · intro tgt u hu
    constructor <;> simp only [copyGo, envOf, afterMirror, apiCreate, apiPush, hu] <;>
      cases copyRoute u <;> simp <;> decide

/-! ## Claim C8 -/

theorem copyLoop_fail (tgtURL srcTok tgtTok vis : Str) (envs : Nat → CopyEnv)
    (r : Repo) (tr e : Str) :
    ∀ (pre : List Repo) (post : List Repo) (i : Nat),
    (∀ j, j < pre.length →
      ∃ t, rewriteURL (pre.getD j ⟨[], []⟩) tgtURL = .ok t ∧
        copyGo (envs (i + j)) t = .ok ()) →
    rewriteURL r tgtURL = .ok tr →
    copyGo (envs (i + pre.length)) tr = .error e →
    (copyLoop tgtURL srcTok tgtTok vis envs (pre ++ r :: post) i).2 = true ∧
    numCopyCalls (copyLoop tgtURL srcTok tgtTok vis envs (pre ++ r :: post) i).1 =
      pre.length + 1 ∧
    ∃ evs, (copyLoop tgtURL srcTok tgtTok vis envs (pre ++ r :: post) i).1 =
      evs ++ [.out (gostr "Failed to copy: " ++ e ++ gostr "\n"), .exit1] := by
  intro pre
  induction pre with
  | nil =>
    intro post i _ hr hc
    simp only [List.nil_append, copyLoop, hr, List.length_nil, Nat.add_zero] at *
    rw [hc]
    refine ⟨rfl, rfl, [.out _, .copyCall srcTok r.url tgtTok tr vis], rfl⟩
  | cons p pre ih =>
    intro post i hok hr hc
    obtain ⟨t, hrw, hcp⟩ := hok 0 (Nat.succ_pos _)
    simp only [List.getD_cons_zero, Nat.add_zero] at hrw hcp
    simp only [List.cons_append, copyLoop, hrw, hcp]
    have hok' : ∀ j, j < pre.length →
        ∃ t, rewriteURL (pre.getD j ⟨[], []⟩) tgtURL = .ok t ∧
          copyGo (envs (i + 1 + j)) t = .ok () := by
      intro j hj
      obtain ⟨t', h1, h2⟩ := hok (j + 1) (Nat.succ_lt_succ hj)
      exact ⟨t', by simpa using h1, by
        have : i + 1 + j = i + (j + 1) := by omega
        rw [this]; exact h2⟩
    have hc' : copyGo (envs (i + 1 + pre.length)) tr = .error e := by
      have : i + 1 + pre.length = i + (p :: pre).length := by
        simp [List.length_cons]; omega
      rw [this]; exact hc
    obtain ⟨h2, hn, evs, hevs⟩ := ih post (i + 1) hok' hr hc'
    refine ⟨h2, ?_, ?_⟩
    · simp [numCopyCalls, hn]
    · exact ⟨.out (gostr "Copying " ++ goQuote p.url ++ gostr " to " ++
          goQuote t ++ gostr "...\n") ::
          .copyCall srcTok p.url tgtTok t vis :: evs, by simp [hevs]⟩

theorem loopGo_stop (srcURL tgtURL srcTok tgtTok vis : Str)
    (listOut : Nat → Except Str (List Repo)) (envs : Nat → Nat → CopyEnv)
    (every : Nat) (everyText : Str) (passIdx : Nat) (waits : List Bool) :
    (passTrace srcURL tgtURL srcTok tgtTok vis (listOut passIdx)
        (envs passIdx)).2 = true →
    loopGo srcURL tgtURL srcTok tgtTok vis listOut envs every everyText
        passIdx waits =
      (passTrace srcURL tgtURL srcTok tgtTok vis (listOut passIdx)
        (envs passIdx)).1 := by
  intro h
  cases waits <;> simp [loopGo, h]

/-- C8.  Every error at any stage is surfaced as a message on standard
output and terminates the whole process: a listing error prints
`Failed to list repos` and exits with code 1 before any `copy` call; a
failing `copy` of the repository after `pre` successful ones prints
`Failed to copy`, exits with code 1, and the repositories after it are
never attempted (exactly `pre.length + 1` copy invocations occur); and a
pass that exited ends the whole run loop — no later pass runs. -/
theorem c8_fail_fast :
    (∀ (srcURL tgtURL srcTok tgtTok vis e : Str) (envs : Nat → CopyEnv),
        passTrace srcURL tgtURL srcTok tgtTok vis (.error e) envs =
          ([.out (gostr "Listing repos for URL: " ++ srcURL ++ gostr "\n"),
            .out (gostr "Failed to list repos: " ++ e ++ gostr "\n"), .exit1],
           true)) ∧
    (∀ (tgtURL srcTok tgtTok vis : Str) (envs : Nat → CopyEnv)
        (pre post : List Repo) (r : Repo) (i : Nat) (tr e : Str),
        (∀ j, j < pre.length →
          ∃ t, rewriteURL (pre.getD j ⟨[], []⟩) tgtURL = .ok t ∧
            copyGo (envs (i + j)) t = .ok ()) →
        rewriteURL r tgtURL = .ok tr →
        copyGo (envs (i + pre.length)) tr = .error e →
        (copyLoop tgtURL srcTok tgtTok vis envs (pre ++ r :: post) i).2 = true ∧
        numCopyCalls
            (copyLoop tgtURL srcTok tgtTok vis envs (pre ++ r :: post) i).1 =
          pre.length + 1 ∧
        ∃ evs, (copyLoop tgtURL srcTok tgtTok vis envs (pre ++ r :: post) i).1 =
          evs ++ [.out (gostr "Failed to copy: " ++ e ++ gostr "\n"), .exit1]) ∧
    (∀ (srcURL tgtURL srcTok tgtTok vis everyText : Str)
        (listOut : Nat → Except Str (List Repo)) (envs : Nat → Nat → CopyEnv)
        (every passIdx : Nat) (waits : List Bool),
        (passTrace srcURL tgtURL srcTok tgtTok vis (listOut passIdx)
          (envs passIdx)).2 = true →
        loopGo srcURL tgtURL srcTok tgtTok vis listOut envs every everyText
            passIdx waits =
          (passTrace srcURL tgtURL srcTok tgtTok vis (listOut passIdx)
            (envs passIdx)).1) := by
  refine ⟨fun _ _ _ _ _ _ _ => rfl, ?_, ?_⟩
  · intro tgtURL srcTok tgtTok vis envs pre post r i tr e hok hr hc
    exact copyLoop_fail tgtURL srcTok tgtTok vis envs r tr e pre post i hok hr hc
  · intro srcURL tgtURL srcTok tgtTok vis everyText listOut envs every passIdx waits h
    exact loopGo_stop srcURL tgtURL srcTok tgtTok vis listOut envs every
      everyText passIdx waits h

/-! ## Claim C9 -/

theorem loopGo_passes (srcURL tgtURL srcTok tgtTok vis everyText : Str)
    (listOut : Nat → Except Str (List Repo)) (envs : Nat → Nat → CopyEnv)
    (every : Nat) (hev : every ≠ 0) :
    ∀ (k passIdx : Nat) (rest : List Bool),
    (∀ p, passIdx ≤ p → p ≤ passIdx + k →
      (passTrace srcURL tgtURL srcTok tgtTok vis (listOut p) (envs p)).2 = false) →
    loopGo srcURL tgtURL srcTok tgtTok vis listOut envs every everyText
        passIdx (List.replicate k false ++ true :: rest) =
      passesThen srcURL tgtURL srcTok tgtTok vis listOut envs everyText
        passIdx k := by
  intro k
  induction k with
  | zero =>
    intro passIdx rest hok
    have h0 := hok passIdx (Nat.le_refl _) (Nat.le_refl _)
    simp [loopGo, h0, hev, passesThen]
  | succ k ih =>
    intro passIdx rest hok
    have h0 := hok passIdx (Nat.le_refl _) (by omega)
    have hok' : ∀ p, passIdx + 1 ≤ p → p ≤ passIdx + 1 + k →
        (passTrace srcURL tgtURL srcTok tgtTok vis (listOut p) (envs p)).2 =
          false := by
      intro p h1 h2
      exact hok p (by omega) (by omega)
    simp only [List.replicate_succ, List.cons_append, loopGo, h0,
      Bool.false_eq_true, if_false, hev, ite_false, if_neg,
      ih (passIdx + 1) rest hok', passesThen]
    simp only [List.append_assoc, List.cons_append, List.nil_append,
      List.append_eq]
    rw [ih (passIdx + 1) rest hok']

/-- C9.  If no repeat interval is configured (`every = 0`), the run loop
performs exactly one pass and exits normally.  If a non-zero interval is
configured and the first `k` waits elapse while the `k+1`-st is
cancelled, exactly `k + 1` passes run, each to completion, with the wait
outcome consulted only between passes (`passesThen`), and the loop exits
cleanly (`Context closed.` then normal return) after the current pass. -/
theorem c9_run_loop :
    (∀ (srcURL tgtURL srcTok tgtTok vis everyText : Str)
        (listOut : Nat → Except Str (List Repo)) (envs : Nat → Nat → CopyEnv)
        (waits : List Bool),
        (passTrace srcURL tgtURL srcTok tgtTok vis (listOut 0) (envs 0)).2 =
          false →
        runMain srcURL tgtURL srcTok tgtTok vis listOut envs 0 everyText waits =
          (passTrace srcURL tgtURL srcTok tgtTok vis (listOut 0) (envs 0)).1 ++
            [.done]) ∧
    (∀ (srcURL tgtURL srcTok tgtTok vis everyText : Str)
        (listOut : Nat → Except Str (List Repo)) (envs : Nat → Nat → CopyEnv)
        (every : Nat) (k : Nat) (rest : List Bool),
        every ≠ 0 →
        (∀ p, p ≤ k →
          (passTrace srcURL tgtURL srcTok tgtTok vis (listOut p) (envs p)).2 =
            false) →
        runMain srcURL tgtURL srcTok tgtTok vis listOut envs every everyText
            (List.replicate k false ++ true :: rest) =
          passesThen srcURL tgtURL srcTok tgtTok vis listOut envs everyText
            0 k) := by
  constructor
  · intro srcURL tgtURL srcTok tgtTok vis everyText listOut envs waits h
    cases waits <;> simp [runMain, loopGo, h]
  · intro srcURL tgtURL srcTok tgtTok vis everyText listOut envs every k rest
      hev hok
    exact loopGo_passes srcURL tgtURL srcTok tgtTok vis everyText listOut envs
      every hev k 0 rest (fun p _ hp => hok p (by omega))

/-! ## Claim C3 -/

theorem outLines_append : ∀ (a b : List Ev),
    outLines (a ++ b) = outLines a ++ outLines b := by
  intro a b
  induction a with
  | nil => rfl
  | cons e t ih => cases e <;> simp [outLines, ih]

theorem copyLoop_tok (tgtURL vis : Str) (envs : Nat → CopyEnv)
    (st1 tt1 st2 tt2 : Str) :
    ∀ (repos : List Repo) (i : Nat),
    outLines (copyLoop tgtURL st1 tt1 vis envs repos i).1 =
      outLines (copyLoop tgtURL st2 tt2 vis envs repos i).1 ∧
    (copyLoop tgtURL st1 tt1 vis envs repos i).2 =
      (copyLoop tgtURL st2 tt2 vis envs repos i).2 := by
  intro repos
  induction repos with
  | nil => intro i; exact ⟨rfl, rfl⟩
  | cons r rest ih =>
    intro i
    cases hrw : rewriteURL r tgtURL with
    | error e => simp [copyLoop, hrw, outLines]
    | ok t =>
      cases hcp : copyGo (envs i) t with
      | error e => simp [copyLoop, hrw, hcp, outLines]
      | ok _ =>
        simp only [copyLoop, hrw, hcp, outLines]
        exact ⟨by rw [(ih (i + 1)).1], (ih (i + 1)).2⟩

theorem passTrace_tok (srcURL tgtURL vis : Str) (lo : Except Str (List Repo))
    (envs : Nat → CopyEnv) (st1 tt1 st2 tt2 : Str) :
    outLines (passTrace srcURL tgtURL st1 tt1 vis lo envs).1 =
      outLines (passTrace srcURL tgtURL st2 tt2 vis lo envs).1 ∧
    (passTrace srcURL tgtURL st1 tt1 vis lo envs).2 =
      (passTrace srcURL tgtURL st2 tt2 vis lo envs).2 := by
  cases lo with
  | error e => exact ⟨rfl, rfl⟩
  | ok repos =>
    simp only [passTrace, outLines]
    have h := copyLoop_tok tgtURL vis envs st1 tt1 st2 tt2 repos 0
    exact ⟨by rw [h.1], h.2⟩

theorem loopGo_tok (srcURL tgtURL vis : Str)
    (listOut : Nat → Except Str (List Repo)) (envs : Nat → Nat → CopyEnv)
    (every : Nat) (everyText : Str) (st1 tt1 st2 tt2 : Str) :
    ∀ (waits : List Bool) (passIdx : Nat),
    outLines (loopGo srcURL tgtURL st1 tt1 vis listOut envs every everyText
        passIdx waits) =
      outLines (loopGo srcURL tgtURL st2 tt2 vis listOut envs every everyText
        passIdx waits) := by
  intro waits
  induction waits with
  | nil =>
    intro passIdx
    have h := passTrace_tok srcURL tgtURL vis (listOut passIdx) (envs passIdx)
      st1 tt1 st2 tt2
    cases hb : (passTrace srcURL tgtURL st1 tt1 vis (listOut passIdx)
        (envs passIdx)).2
    · have hb2 := h.2.symm.trans hb
      by_cases he : every = 0 <;>
        simp [loopGo, hb, hb2, he, outLines_append, h.1]
    · have hb2 := h.2.symm.trans hb
      simp [loopGo, hb, hb2, h.1]
  | cons w rest ih =>
    intro passIdx
    have h := passTrace_tok srcURL tgtURL vis (listOut passIdx) (envs passIdx)
      st1 tt1 st2 tt2
    cases hb : (passTrace srcURL tgtURL st1 tt1 vis (listOut passIdx)
        (envs passIdx)).2
    · have hb2 := h.2.symm.trans hb
      by_cases he : every = 0
      · simp [loopGo, hb, hb2, he, outLines_append, h.1]
      · cases w <;>
          simp [loopGo, hb, hb2, he, outLines_append, h.1, outLines,
            ih (passIdx + 1)]
    · have hb2 := h.2.symm.trans hb
      simp [loopGo, hb, hb2, h.1]

theorem isPrefixOf_iff : ∀ (p s : Str),
    p.isPrefixOf s = true ↔ ∃ t, s = p ++ t := by
  intro p
  induction p with
  | nil => intro s; simp [List.isPrefixOf]
  | cons c pr ih =>
    intro s
    cases s with
    | nil => simp [List.isPrefixOf]
    | cons d sr =>
      simp only [List.isPrefixOf, Bool.and_eq_true, beq_iff_eq, ih,
        List.cons_append, List.cons.injEq]
      constructor
      · rintro ⟨h1, t, h2⟩; exact ⟨t, h1.symm, h2⟩
      · rintro ⟨t, h1, h2⟩; exact ⟨h1.symm, t, h2⟩

theorem seqContains_iff : ∀ (s pat : Str),
    seqContains s pat = true ↔ ∃ x z, s = x ++ pat ++ z := by
  intro s
  induction s with
  | nil =>
    intro pat
    cases pat with
    | nil => simp [seqContains, idxOfSeq]
    | cons c r =>
      simp only [seqContains, idxOfSeq, if_neg (List.cons_ne_nil c r),
        Option.isSome_none]
      constructor
      · intro h; exact absurd h (by simp)
      · rintro ⟨x, z, h⟩; exact absurd h.symm (by simp)
  | cons c r ih =>
    intro pat
    by_cases hp : pat.isPrefixOf (c :: r) = true
    · simp only [seqContains, idxOfSeq, hp, if_true, Option.isSome_some,
        true_iff]
      obtain ⟨t, ht⟩ := (isPrefixOf_iff pat (c :: r)).mp hp
      exact ⟨[], t, by simp [ht]⟩
    · have : seqContains (c :: r) pat = seqContains r pat := by
        simp [seqContains, idxOfSeq, hp]
      rw [this, ih]
      constructor
      · rintro ⟨x, z, h⟩; exact ⟨c :: x, z, by simp [h]⟩
      · rintro ⟨x, z, h⟩
        cases x with
        | nil =>
          exfalso
          apply hp
          rw [isPrefixOf_iff]
          exact ⟨z, by simpa using h⟩
        | cons d xr =>
          simp only [List.cons_append, List.cons.injEq] at h
          exact ⟨xr, z, h.2⟩

theorem replaceAll_embeds : ∀ (fuel : Nat) (s pat rep : Str),
    s.length ≤ fuel → pat ≠ [] → seqContains s pat = true →
    ∃ a b, replaceAllF fuel s pat rep = a ++ rep ++ b := by
  intro fuel
  induction fuel with
  | zero =>
    intro s pat rep hle hpat hc
    interval_cases hs : s.length
    have : s = [] := List.length_eq_zero.mp hs
    subst this
    rw [seqContains_iff] at hc
    obtain ⟨x, z, h⟩ := hc
    cases pat with
    | nil => exact absurd rfl hpat
    | cons c r => exact absurd h.symm (by simp)
  | succ fuel ih =>
    intro s pat rep hle hpat hc
    cases s with
    | nil =>
      rw [seqContains_iff] at hc
      obtain ⟨x, z, h⟩ := hc
      cases pat with
      | nil => exact absurd rfl hpat
      | cons c r => exact absurd h.symm (by simp)
    | cons c r =>
      by_cases hp : pat.isPrefixOf (c :: r) = true
      · refine ⟨[], replaceAllF fuel ((c :: r).drop pat.length) pat rep, ?_⟩
        simp [replaceAllF, hpat, hp]
      · have hc' : seqContains r pat = true := by
          have : seqContains (c :: r) pat = seqContains r pat := by
            simp [seqContains, idxOfSeq, hp]
          rw [← this]; exact hc
        obtain ⟨a, b, hab⟩ := ih r pat rep (by simpa using Nat.le_of_succ_le_succ hle) hpat hc'
        refine ⟨c :: a, b, ?_⟩
        simp only [replaceAllF]
        rw [if_neg (by simp [hp]), hab]
        simp

/-- C3 (amended).  During normal runs the credentials never reach
standard output: the printed lines are literally unchanged under any
change of the two token values (they flow only into the `copy`
invocations).  In `-print-systemd-unit` mode, however, both tokens are
embedded verbatim in the emitted unit text whenever the template
contains the `$CMD` placeholder. -/
theorem c3_output_token_independent :
    (∀ (srcURL tgtURL vis everyText : Str)
        (listOut : Nat → Except Str (List Repo)) (envs : Nat → Nat → CopyEnv)
        (every : Nat) (waits : List Bool) (st1 tt1 st2 tt2 : Str),
        outLines (runMain srcURL tgtURL st1 tt1 vis listOut envs every
          everyText waits) =
        outLines (runMain srcURL tgtURL st2 tt2 vis listOut envs every
          everyText waits)) ∧
    (∀ (tmpl srcTok srcURL tgtTok tgtURL vis everyText : Str) (every : Nat),
        seqContains tmpl (gostr "$CMD") = true →
        seqContains (printSystemdUnit tmpl srcTok srcURL tgtTok tgtURL vis
          every everyText) srcTok = true ∧
        seqContains (printSystemdUnit tmpl srcTok srcURL tgtTok tgtURL vis
          every everyText) tgtTok = true) := by
  constructor
  · intro srcURL tgtURL vis everyText listOut envs every waits st1 tt1 st2 tt2
    exact loopGo_tok srcURL tgtURL vis listOut envs every everyText
      st1 tt1 st2 tt2 waits 0
  · intro tmpl srcTok srcURL tgtTok tgtURL vis everyText every hc
    rcases replaceAll_embeds tmpl.length tmpl (gostr "$CMD")
        (buildCmd srcTok srcURL tgtTok tgtURL vis every everyText)
        (Nat.le_refl _) (by decide) hc with ⟨a, b, hab⟩
    constructor
    · rw [seqContains_iff]
      refine ⟨a ++ (gostr "/usr/local/bin/copy-github-to-github" ++
          gostr " -src-token "),
        (gostr " -src-url " ++ srcURL ++ gostr " -tgt-token " ++ tgtTok ++
          gostr " -tgt-url " ++ tgtURL ++ gostr " -tgt-visibility " ++ vis ++
          (if 0 < every then gostr " -every " ++ everyText else [])) ++ b ++
          gostr "\n", ?_⟩
      unfold printSystemdUnit goReplaceAll
      rw [hab]
      simp [buildCmd, List.append_assoc]
    · rw [seqContains_iff]
      refine ⟨a ++ (gostr "/usr/local/bin/copy-github-to-github" ++
          gostr " -src-token " ++ srcTok ++ gostr " -src-url " ++ srcURL ++
          gostr " -tgt-token "),
        (gostr " -tgt-url " ++ tgtURL ++ gostr " -tgt-visibility " ++ vis ++
          (if 0 < every then gostr " -every " ++ everyText else [])) ++ b ++
          gostr "\n", ?_⟩
      unfold printSystemdUnit goReplaceAll
      rw [hab]
      simp [buildCmd, List.append_assoc]

set_option maxRecDepth 100000 in
/-- C3 (counterexample to the claim as stated): in `-print-systemd-unit`
mode the source and target tokens are written verbatim into the
program's output. -/
theorem c3_unit_embeds_tokens_cex :
    seqContains
      (printSystemdUnit (gostr "[Service]\nExecStart=$CMD\n")
        (gostr "SRCTOKEN") (gostr "https://github.com/org")
        (gostr "TGTTOKEN") (gostr "https://ghe.example.com/org")
        (gostr "public") 0 []) (gostr "SRCTOKEN") = true ∧
    seqContains
      (printSystemdUnit (gostr "[Service]\nExecStart=$CMD\n")
        (gostr "SRCTOKEN") (gostr "https://github.com/org")
        (gostr "TGTTOKEN") (gostr "https://ghe.example.com/org")
        (gostr "public") 0 []) (gostr "TGTTOKEN") = true := by
  constructor <;> decide

/-- Witness for C3 at a concrete template and tokens. -/
theorem c3_output_token_independent_w :
    seqContains (printSystemdUnit (gostr "$CMD") (gostr "S1") []
      (gostr "T1") [] [] 0 []) (gostr "S1") = true ∧
    seqContains (printSystemdUnit (gostr "$CMD") (gostr "S1") []
      (gostr "T1") [] [] 0 []) (gostr "T1") = true :=
  c3_output_token_independent.2 (gostr "$CMD") (gostr "S1") []
    (gostr "T1") [] [] [] 0 (by decide)

/-- Witness for C7: both runs of the two-run scenario succeed at a
concrete target URL. -/
theorem c7_mirror_idempotency_w :
    copyGo (envOf ⟨false, false⟩) (gostr "https://h/o/r") = .ok () ∧
    copyGo (envOf afterMirror) (gostr "https://h/o/r") = .ok () :=
  c7_mirror_idempotency.2.2.2.2 (gostr "https://h/o/r")
    ⟨gostr "https", [], none, gostr "h", gostr "/o/r", [], false, false,
     [], [], []⟩ (by rfl)

/-- Witness for C8 at a concrete failing copy: one copy call happens,
the failure is printed, the process exits. -/
theorem c8_fail_fast_w :
    (copyLoop (gostr "https://h/o") [] [] (gostr "public")
        (fun _ => { cloneErr := some (gostr "x") })
        ([] ++ ⟨gostr "x", gostr "u"⟩ :: []) 0).2 = true ∧
    numCopyCalls (copyLoop (gostr "https://h/o") [] [] (gostr "public")
        (fun _ => { cloneErr := some (gostr "x") })
        ([] ++ ⟨gostr "x", gostr "u"⟩ :: []) 0).1 =
      List.length ([] : List Repo) + 1 ∧
    ∃ evs, (copyLoop (gostr "https://h/o") [] [] (gostr "public")
        (fun _ => { cloneErr := some (gostr "x") })
        ([] ++ ⟨gostr "x", gostr "u"⟩ :: []) 0).1 =
      evs ++ [.out (gostr "Failed to copy: " ++ gostr "failed to clone: x" ++
        gostr "\n"), .exit1] :=
  c8_fail_fast.2.1 (gostr "https://h/o") [] [] (gostr "public")
    (fun _ => { cloneErr := some (gostr "x") }) [] [] ⟨gostr "x", gostr "u"⟩ 0
    (gostr "https://h/o/x") (gostr "failed to clone: x")
    (fun j hj => absurd hj (Nat.not_lt_zero j)) (by rfl) (by rfl)

/-- Witness for C9 at a concrete schedule: one elapsed wait, then a
cancelled one, giving exactly two complete passes and a clean exit. -/
theorem c9_run_loop_w :
    runMain [] [] [] [] [] (fun _ => .ok []) (fun _ _ => {}) 1 []
        (List.replicate 1 false ++ true :: []) =
      passesThen [] [] [] [] [] (fun _ => .ok []) (fun _ _ => {}) [] 0 1 :=
  c9_run_loop.2 [] [] [] [] [] [] (fun _ => .ok []) (fun _ _ => {}) 1 1 []
    (by decide) (fun p _ => rfl)

/-! ## Claim C1 -/

/-- C1 (amended).  For every parseable source URL, `listRepos` splits the
path trimmed of leading and trailing slashes on `/`: one resulting
segment delegates to the Lister as an organization reference; exactly two
segments produce the single `Repo` whose name is the second segment and
whose URL is the input URL, without calling the Lister; more than two
segments fail.  A path with zero non-empty segments trims to the empty
string, which splits into the single empty segment, so it is treated as
an organization reference (with empty organization name), not as an
invalid URL. -/
theorem c1_resolve_segments (ghURL : Str) (u : GoURL)
    (hu : goParseURL ghURL = .ok u) :
    ((goSplit (goTrim u.path (ch '/')) (ch '/')).length = 1 →
      listRepos ghURL = .orgList u) ∧
    ((goSplit (goTrim u.path (ch '/')) (ch '/')).length = 2 →
      listRepos ghURL =
        .single ⟨(goSplit (goTrim u.path (ch '/')) (ch '/')).getD 1 [],
          ghURL⟩) ∧
    (2 < (goSplit (goTrim u.path (ch '/')) (ch '/')).length →
      listRepos ghURL =
        .err (gostr "unexpected number of path segments in URL, expected /<org> or /<org>/<repo>, got " ++ ghURL)) ∧
    (goTrim u.path (ch '/') = [] →
      goSplit (goTrim u.path (ch '/')) (ch '/') = [[]]) := by
  refine ⟨?_, ?_, ?_, ?_⟩
  · intro h1; simp [listRepos, hu, h1]
  · intro h2
    have hn1 : ¬ (goSplit (goTrim u.path (ch '/')) (ch '/')).length = 1 := by
      omega
    have hn2 : ¬ (goSplit (goTrim u.path (ch '/')) (ch '/')).length > 2 := by
      omega
    simp [listRepos, hu, hn1, hn2]
  · intro h3
    have hn1 : ¬ (goSplit (goTrim u.path (ch '/')) (ch '/')).length = 1 := by
      omega
    simp [listRepos, hu, hn1, h3]
  · intro h4; rw [h4]; rfl

/-- C1 (counterexample to the claim as stated): a source URL whose path
has zero non-empty segments is routed to the organization Lister (with
empty organization name), not rejected as an invalid URL. -/
theorem c1_zero_segments_cex :
    listRepos (gostr "https://github.com/") =
      .orgList ⟨gostr "https", [], none, gostr "github.com", gostr "/", [],
        false, false, [], [], []⟩ ∧
    (listRepos (gostr "https://github.com/")).isErr = false := by
  exact ⟨rfl, rfl⟩

/-- Witness for C1 at a one-segment organization URL. -/
theorem c1_resolve_segments_w :
    listRepos (gostr "https://github.com/org") =
      .orgList ⟨gostr "https", [], none, gostr "github.com", gostr "/org", [],
        false, false, [], [], []⟩ :=
  (c1_resolve_segments (gostr "https://github.com/org")
    ⟨gostr "https", [], none, gostr "github.com", gostr "/org", [],
      false, false, [], [], []⟩ (by rfl)).1 (by rfl)

/-! ## Claim C2 -/

/-- C2 (amended).  For every target URL that `url.Parse` rejects,
`rewriteURL` returns the parse failure as an error, and the run loop
then prints the failure and exits before any `copy` call — no mirror
attempt occurs for that repository (nor any later one). -/
theorem c2_malformed_target :
    (∀ (r : Repo) (tgt e : Str), goParseURL tgt = .error e →
        rewriteURL r tgt = .error (gostr "failed to parse target URL: " ++ e)) ∧
    (∀ (tgt e srcTok tgtTok vis : Str) (envs : Nat → CopyEnv)
        (r : Repo) (rest : List Repo) (i : Nat),
        goParseURL tgt = .error e →
        copyLoop tgt srcTok tgtTok vis envs (r :: rest) i =
          ([.out (gostr "Failed to rewrite URL " ++ goQuote r.url ++
              gostr ": " ++ (gostr "failed to parse target URL: " ++ e) ++
              gostr "\n"), .exit1], true) ∧
        numCopyCalls (copyLoop tgt srcTok tgtTok vis envs (r :: rest) i).1 =
          0) := by
  have h1 : ∀ (r : Repo) (tgt e : Str), goParseURL tgt = .error e →
      rewriteURL r tgt = .error (gostr "failed to parse target URL: " ++ e) := by
    intro r tgt e h
    simp [rewriteURL, h]
  refine ⟨h1, ?_⟩
  intro tgt e srcTok tgtTok vis envs r rest i h
  have h2 : copyLoop tgt srcTok tgtTok vis envs (r :: rest) i =
      ([.out (gostr "Failed to rewrite URL " ++ goQuote r.url ++ gostr ": " ++
         (gostr "failed to parse target URL: " ++ e) ++ gostr "\n"), .exit1],
       true) := by
    simp [copyLoop, h1 r tgt e h]
  exact ⟨h2, by rw [h2]; rfl⟩

set_option maxHeartbeats 2000000 in
set_option maxRecDepth 100000 in
/-- C2 (counterexample to the claim as stated): an empty-path target URL
is not malformed — `url.Parse` accepts it, `rewriteURL` produces a
destination with an empty organization segment, and the mirror is
attempted (one `copy` call occurs). -/
theorem c2_empty_path_cex :
    rewriteURL ⟨gostr "x", gostr "u"⟩ (gostr "https://github.com") =
      .ok (gostr "https://github.com//x") ∧
    numCopyCalls (copyLoop (gostr "https://github.com") [] [] (gostr "public")
      (fun _ => {}) [⟨gostr "x", gostr "u"⟩] 0).1 = 1 := by
  constructor <;> decide

/-- Witness for C2 at a concrete unparseable target URL. -/
theorem c2_malformed_target_w :
    rewriteURL ⟨gostr "x", gostr "u"⟩ (gostr "://e") =
      .error (gostr "failed to parse target URL: " ++
        gostr "missing protocol scheme") :=
  c2_malformed_target.1 ⟨gostr "x", gostr "u"⟩ (gostr "://e")
    (gostr "missing protocol scheme") (by rfl)

/-! ## Escaping round-trip lemmas -/

theorem hexDigit_facts : ∀ n : Fin 16,
    ishex (hexUp n.val) = true ∧ unhex (hexUp n.val) = n.val := by decide

theorem byte_div16_lt (c : Byte) : c.val / 16 < 16 := by
  have := c.isLt
  omega

theorem byte_mod16_lt (c : Byte) : c.val % 16 < 16 :=
  Nat.mod_lt _ (by norm_num)

theorem chN_val (c : Byte) : chN c.val = c := by
  apply Fin.ext
  simp [chN, Fin.ofNat, Nat.mod_eq_of_lt c.isLt]

theorem unescape_cons_nonpct (c : Byte) (rest : Str) (mode : Enc)
    (hpct : c ≠ ch '%') :
    unescape (c :: rest) mode =
      (if c = ch '+' then
        match unescape rest mode with
        | .error e => .error e
        | .ok t => .ok ((if mode = .queryComponent then ch ' ' else ch '+') :: t)
      else if (mode = .host ∨ mode = .zone) ∧ c.val < 0x80 ∧
          shouldEscape c mode = true then
        .error (gostr "invalid character " ++ [c] ++ gostr " in host name")
      else match unescape rest mode with
        | .error e => .error e
        | .ok t => .ok (c :: t)) := by
  cases rest with
  | nil => simp only [unescape, if_neg hpct]
  | cons d t =>
    cases t with
    | nil => simp only [unescape, if_neg hpct]
    | cons e t2 => simp only [unescape, if_neg hpct]

theorem unescape_pct (a b : Byte) (rest : Str) (mode : Enc) :
    unescape (ch '%' :: a :: b :: rest) mode =
      (if ishex a ∧ ishex b then
        if mode = .host ∧ unhex a < 8 ∧ ¬(a = ch '2' ∧ b = ch '5') then
          .error (gostr "invalid URL escape " ++ [ch '%', a, b])
        else if mode = .zone ∧ ¬(a = ch '2' ∧ b = ch '5') ∧
            chN (unhex a * 16 + unhex b) ≠ ch ' ' ∧
            shouldEscape (chN (unhex a * 16 + unhex b)) .host then
          .error (gostr "invalid URL escape " ++ [ch '%', a, b])
        else
          match unescape rest mode with
          | .error e => .error e
          | .ok t => .ok (chN (unhex a * 16 + unhex b) :: t)
      else .error (gostr "invalid URL escape " ++
        (ch '%' :: (a :: b :: rest).take 2))) := by
  simp only [unescape, if_pos rfl]
  rw [if_pos trivial]

theorem unhex_hexUp_byte (c : Byte) :
    unhex (hexUp (c.val / 16)) * 16 + unhex (hexUp (c.val % 16)) = c.val := by
  have ha := (hexDigit_facts ⟨c.val / 16, byte_div16_lt c⟩).2
  have hb := (hexDigit_facts ⟨c.val % 16, byte_mod16_lt c⟩).2
  simp only at ha hb
  rw [ha, hb]
  have := Nat.div_add_mod c.val 16
  omega

theorem unescape_escape_path : ∀ p : Str,
    unescape (escapeStr p .path) .path = .ok p := by
  intro p
  induction p with
  | nil => rfl
  | cons c r ih =>
    simp only [escapeStr]
    by_cases hesc : shouldEscape c .path = true
    · rw [show encByte c .path =
          [ch '%', hexUp (c.val / 16), hexUp (c.val % 16)] from by
        simp [encByte, hesc]]
      rw [List.cons_append, List.cons_append, List.cons_append,
        List.nil_append, unescape_pct]
      have ha := (hexDigit_facts ⟨c.val / 16, byte_div16_lt c⟩).1
      have hb := (hexDigit_facts ⟨c.val % 16, byte_mod16_lt c⟩).1
      simp only at ha hb
      rw [if_pos ⟨ha, hb⟩, if_neg (by simp), if_neg (by simp), ih,
        unhex_hexUp_byte, chN_val]
    · have henc : encByte c .path = [c] := by
        simp [encByte, hesc]
      rw [henc]
      have hpct : c ≠ ch '%' := by
        intro h
        rw [h] at hesc
        exact hesc (by decide)
      rw [List.cons_append, List.nil_append, unescape_cons_nonpct c _ _ hpct]
      by_cases hplus : c = ch '+'
      · rw [if_pos hplus, ih]
        subst hplus
        rfl
      · rw [if_neg hplus, if_neg (by simp), ih]

theorem escapedPath_unescape (scheme host P : Str) (hstar : P ≠ [ch '*']) :
    unescape (escapedPath (mkRewriteURL scheme host P)) .path = .ok P := by
  unfold escapedPath mkRewriteURL
  by_cases hcond : P ≠ [] ∧ validEncoded P .path = true ∧
      unescape P .path = .ok P
  · rw [if_pos hcond]
    exact hcond.2.2
  · rw [if_neg hcond, if_neg hstar]
    exact unescape_escape_path P

theorem escapedPath_head (scheme host : Str) (P t0 : Str)
    (hP : P = ch '/' :: t0) :
    ∃ t, escapedPath (mkRewriteURL scheme host P) = ch '/' :: t := by
  unfold escapedPath mkRewriteURL
  by_cases hcond : P ≠ [] ∧ validEncoded P .path = true ∧
      unescape P .path = .ok P
  · rw [if_pos hcond]
    exact ⟨t0, hP⟩
  · rw [if_neg hcond, if_neg (show ¬ P = [ch '*'] by
      subst hP
      intro h
      injection h with h1 _
      exact absurd h1 (by decide))]
    subst hP
    rw [escapeStr, show encByte (ch '/') .path = [ch '/'] from by decide]
    exact ⟨escapeStr t0 .path, rfl⟩

theorem urlString_mk (scheme host P : Str)
    (hp : ∃ t, escapedPath (mkRewriteURL scheme host P) = ch '/' :: t) :
    urlString (mkRewriteURL scheme host P) =
      ((if scheme ≠ [] then scheme ++ [ch ':'] else []) ++
        (if scheme ≠ [] ∨ host ≠ [] then
          (if host ≠ [] ∨ P ≠ [] then gostr "//" else []) ++
            (if host ≠ [] then escapeStr host .host else [])
         else [])) ++ escapedPath (mkRewriteURL scheme host P) := by
  obtain ⟨t, ht⟩ := hp
  simp only [urlString, mkRewriteURL]
  simp only [mkRewriteURL] at ht
  rw [if_neg (by simp)]
  simp only [ht]
  simp only [show cutByte (ch '/' :: t) (ch '/') = ([], t) from by
    simp [cutByte]]
  simp only [show seqContains ([] : Str) [ch ':'] = false from rfl]
  simp only [Option.isSome_none, Bool.false_eq_true, or_false, ne_eq,
    List.head?_cons, Option.some.injEq, and_false, false_and, if_false,
    ite_false, not_false_eq_true, List.append_nil, List.nil_append,
    and_self, not_true_eq_false]

/-! ## Claim C10 -/

/-- C10 (amended).  For every repository and parseable target URL the
destination URL splits as a prefix (scheme and authority) followed by the
escaped path, and that path percent-decodes to exactly
`/{first segment of the target's trimmed path}/{repo name}`: every later
path segment of the target, as well as its query, fragment, and user
info, is silently discarded, and the decoded destination path always ends
in `/name` — so at the path level the destination repository can never
get a different name than the source repository.  (At the raw byte level
the URL ends in the percent-encoded form of the name, see the
counterexample.) -/
theorem c10_name_suffix (r : Repo) (tgt : Str) (u : GoURL)
    (hu : goParseURL tgt = .ok u) :
    ∃ s pre ep, rewriteURL r tgt = .ok s ∧ s = pre ++ ep ∧
      unescape ep .path = .ok (ch '/' ::
        ((goSplit (goTrim u.path (ch '/')) (ch '/')).headD [] ++
          ch '/' :: r.name)) := by
  simp only [rewriteURL, hu]
  show ∃ s pre ep,
    Except.ok (α := Str) (urlString (mkRewriteURL u.scheme u.host
      (ch '/' :: goJoin [(goSplit (goTrim u.path (ch '/')) (ch '/')).headD [],
        r.name] (ch '/')))) = .ok s ∧ s = pre ++ ep ∧
    unescape ep .path = .ok (ch '/' ::
      ((goSplit (goTrim u.path (ch '/')) (ch '/')).headD [] ++
        ch '/' :: r.name))
  refine ⟨_, _, _, rfl,
    urlString_mk u.scheme u.host _ (escapedPath_head _ _ _ _ rfl), ?_⟩
  exact escapedPath_unescape u.scheme u.host _ (by
    intro h
    injection h with h1 _
    exact absurd h1 (by decide))

/-- C10 (counterexample to the byte-level reading): a repository name
needing percent-escaping, here `"a b"`, yields a destination URL that
ends in `a%20b`, not in the name itself. -/
theorem c10_name_suffix_cex :
    rewriteURL ⟨gostr "a b", gostr "u"⟩ (gostr "https://h/org") =
      .ok (gostr "https://h/org/a%20b") ∧
    (gostr "a b").isSuffixOf (gostr "https://h/org/a%20b") = false := by
  exact ⟨rfl, rfl⟩

/-- Witness for C10 at a concrete repository and target. -/
theorem c10_name_suffix_w :
    ∃ s pre ep,
      rewriteURL ⟨gostr "x", gostr "u"⟩ (gostr "https://h/org/extra") =
        .ok s ∧ s = pre ++ ep ∧
      unescape ep .path = .ok (ch '/' ::
        ((goSplit (goTrim (gostr "/org/extra") (ch '/')) (ch '/')).headD [] ++
          ch '/' :: gostr "x")) :=
  c10_name_suffix ⟨gostr "x", gostr "u"⟩ (gostr "https://h/org/extra")
    ⟨gostr "https", [], none, gostr "h", gostr "/org/extra", [],
      false, false, [], [], []⟩ (by rfl)

/-! ## Claim C6: escaped-string membership facts -/

theorem escape_mem {m : Enc} (hm : m ≠ .queryComponent) :
    ∀ (h : Str) (b : Byte), b ∈ escapeStr h m →
      (b ∈ h ∧ shouldEscape b m = false) ∨ b = ch '%' ∨
        ∃ n : Fin 16, b = hexUp n.val := by
  intro h
  induction h with
  | nil => intro b hb; cases hb
  | cons c r ih =>
    intro b hb
    rw [escapeStr, List.mem_append] at hb
    rcases hb with hb | hb
    · rw [encByte, if_neg (fun hx => hm hx.2)] at hb
      by_cases hesc : shouldEscape c m = true
      · rw [if_pos hesc] at hb
        simp only [List.mem_cons, List.not_mem_nil, or_false] at hb
        rcases hb with rfl | rfl | rfl
        · exact Or.inr (Or.inl rfl)
        · exact Or.inr (Or.inr ⟨⟨c.val / 16, byte_div16_lt c⟩, rfl⟩)
        · exact Or.inr (Or.inr ⟨⟨c.val % 16, byte_mod16_lt c⟩, rfl⟩)
      · rw [if_neg hesc] at hb
        simp only [List.mem_cons, List.not_mem_nil, or_false] at hb
        subst hb
        exact Or.inl ⟨List.mem_cons_self _ _, Bool.not_eq_true _ ▸ hesc⟩
    · rcases ih b hb with ⟨h1, h2⟩ | h2
      · exact Or.inl ⟨List.mem_cons_of_mem _ h1, h2⟩
      · exact Or.inr h2

theorem not_mem_escape {m : Enc} (hm : m ≠ .queryComponent) (h : Str)
    (b : Byte) (hb1 : shouldEscape b m = true) (hb2 : b ≠ ch '%')
    (hb3 : ∀ n : Fin 16, b ≠ hexUp n.val) : b ∉ escapeStr h m := by
  intro hmem
  rcases escape_mem hm h b hmem with ⟨_, h2⟩ | h2 | ⟨n, h2⟩
  · rw [hb1] at h2; cases h2
  · exact hb2 h2
  · exact hb3 n h2

theorem hexUp_no_ctl : ∀ n : Fin 16,
    ¬((hexUp n.val).val < 32 ∨ (hexUp n.val).val = 127) := by decide

theorem escape_no_ctl {m : Enc} (hm : m ≠ .queryComponent)
    (hctl : ∀ c : Byte, c.val < 32 ∨ c.val = 127 → shouldEscape c m = true)
    (h : Str) (b : Byte) (hb : b ∈ escapeStr h m) :
    ¬(b.val < 32 ∨ b.val = 127) := by
  intro hbad
  rcases escape_mem hm h b hb with ⟨_, h2⟩ | h2 | ⟨n, h2⟩
  · rw [hctl b hbad] at h2; cases h2
  · subst h2; exact absurd hbad (by decide)
  · subst h2; exact hexUp_no_ctl n hbad

theorem escape_ne_nil {m : Enc} (h : Str) (hh : h ≠ []) :
    escapeStr h m ≠ [] := by
  cases h with
  | nil => exact absurd rfl hh
  | cons c r =>
    rw [escapeStr]
    intro hx
    rcases List.append_eq_nil.mp hx with ⟨h1, _⟩
    revert h1
    rw [encByte]
    by_cases h1 : c = ch ' ' ∧ m = .queryComponent
    · rw [if_pos h1]; simp
    · rw [if_neg h1]
      by_cases h2 : shouldEscape c m = true
      · rw [if_pos h2]; simp
      · rw [if_neg h2]; simp

theorem escapedPath_mem (scheme host P : Str) (hstar : P ≠ [ch '*'])
    (b : Byte) (hb : b ∈ escapedPath (mkRewriteURL scheme host P)) :
    (b ∈ [ch '!', ch '$', ch '&', ch '\'', ch '(', ch ')', ch '*', ch '+',
          ch ',', ch ';', ch '=', ch ':', ch '@', ch '[', ch ']', ch '%'] ∨
      shouldEscape b .path = false) ∨
      b = ch '%' ∨ ∃ n : Fin 16, b = hexUp n.val := by
  revert hb
  unfold escapedPath mkRewriteURL
  by_cases hcond : P ≠ [] ∧ validEncoded P .path = true ∧
      unescape P .path = .ok P
  · rw [if_pos hcond]
    intro hb
    have := hcond.2.1
    rw [validEncoded, List.all_eq_true] at this
    have h2 := this b hb
    by_cases hw : b ∈ [ch '!', ch '$', ch '&', ch '\'', ch '(', ch ')',
        ch '*', ch '+', ch ',', ch ';', ch '=', ch ':', ch '@', ch '[',
        ch ']', ch '%']
    · exact Or.inl (Or.inl hw)
    · rw [if_neg hw] at h2
      simp only [decide_eq_true_eq] at h2
      exact Or.inl (Or.inr (by simpa using h2))
  · rw [if_neg hcond, if_neg hstar]
    intro hb
    rcases escape_mem (by decide) P b hb with ⟨_, h2⟩ | h2
    · exact Or.inl (Or.inr h2)
    · exact Or.inr h2

/-! ## Claim C6: `getScheme` lemmas -/

theorem gsLoop_app : ∀ (s2 pre r : Str),
    (∀ c ∈ s2, schemeCharB c = true) →
    (pre = [] → ∃ c s2', s2 = c :: s2' ∧ isAlphaB c = true) →
    gsLoop (pre ++ s2 ++ ch ':' :: r) pre.length (s2 ++ ch ':' :: r) =
      .ok (pre ++ s2, r) := by
  intro s2
  induction s2 with
  | nil =>
    intro pre r _ hne
    have hpre : pre ≠ [] := by
      intro h
      obtain ⟨c, s2', hc, _⟩ := hne h
      cases hc
    simp only [List.nil_append, List.append_nil]
    rw [gsLoop, if_neg (by decide), if_neg (by decide), if_pos rfl,
      if_neg (by simpa using hpre)]
    have ht : (pre ++ ch ':' :: r).take pre.length = pre := List.take_left _ _
    have hd : (pre ++ ch ':' :: r).drop (pre.length + 1) = r := by
      rw [show pre ++ ch ':' :: r = (pre ++ [ch ':']) ++ r from by simp,
        show pre.length + 1 = (pre ++ [ch ':']).length from by simp]
      exact List.drop_left _ _
    rw [ht, hd]
  | cons c s2' ih =>
    intro pre r hcs hne
    have hc := hcs c (List.mem_cons_self _ _)
    have hrec : gsLoop (pre ++ (c :: s2') ++ ch ':' :: r) (pre.length + 1)
        (s2' ++ ch ':' :: r) = .ok (pre ++ c :: s2', r) := by
      have horig : pre ++ (c :: s2') ++ ch ':' :: r =
          (pre ++ [c]) ++ s2' ++ ch ':' :: r := by simp
      have hlen : pre.length + 1 = (pre ++ [c]).length := by simp
      have hout : pre ++ c :: s2' = (pre ++ [c]) ++ s2' := by simp
      rw [horig, hlen, hout]
      exact ih (pre ++ [c]) r (fun d hd => hcs d (List.mem_cons_of_mem _ hd))
        (fun h => absurd h (by simp))
    rw [schemeCharB] at hc
    simp only [Bool.decide_or, Bool.or_eq_true, decide_eq_true_eq] at hc
    by_cases ha : isAlphaB c = true
    · rw [List.cons_append, gsLoop, if_pos ha]
      exact hrec
    · have hd : (isDigitB c = true ∨ c = ch '+' ∨ c = ch '-' ∨ c = ch '.') := by
        rcases hc with h | h
        · exact absurd h ha
        · exact h
      have hpre : pre ≠ [] := by
        intro h
        obtain ⟨c0, s0, hcc, hal⟩ := hne h
        injection hcc with h1 _
        subst h1
        exact ha hal
      rw [List.cons_append, gsLoop, if_neg ha,
        if_pos (by simpa using hd), if_neg (by simpa using hpre)]
      exact hrec

theorem getSchemeGo_app (scheme r : Str)
    (h1 : ∀ c ∈ scheme, schemeCharB c = true)
    (h2 : ∃ c s', scheme = c :: s' ∧ isAlphaB c = true) :
    getSchemeGo (scheme ++ ch ':' :: r) = .ok (scheme, r) := by
  unfold getSchemeGo
  have := gsLoop_app scheme [] r h1 (fun _ => h2)
  simpa using this

theorem getSchemeGo_slash (s : Str) :
    getSchemeGo (ch '/' :: s) = .ok ([], ch '/' :: s) := by
  unfold getSchemeGo
  rw [gsLoop, if_neg (by decide), if_neg (by decide), if_neg (by decide)]

theorem gsLoop_out : ∀ (rest pre s r2 : Str),
    (∀ c ∈ pre, schemeCharB c = true) →
    (pre ≠ [] → ∃ c p', pre = c :: p' ∧ isAlphaB c = true) →
    gsLoop (pre ++ rest) pre.length rest = .ok (s, r2) →
    s = [] ∨ ((∀ c ∈ s, schemeCharB c = true) ∧
      ∃ c s', s = c :: s' ∧ isAlphaB c = true) := by
  intro rest
  induction rest with
  | nil =>
    intro pre s r2 _ _ h
    rw [gsLoop] at h
    injection h with h
    injection h with h1 _
    exact Or.inl h1.symm
  | cons c cs ih =>
    intro pre s r2 hpre hne h
    have hch_of : isAlphaB c = true ∨
        (isDigitB c = true ∨ c = ch '+' ∨ c = ch '-' ∨ c = ch '.') →
        schemeCharB c = true := by
      intro hx
      rw [schemeCharB]
      simp only [Bool.decide_or, Bool.or_eq_true, decide_eq_true_eq]
      rcases hx with hx | hx
      · exact Or.inl hx
      · exact Or.inr hx
    have hrec : schemeCharB c = true →
        (pre ++ [c] ≠ [] → ∃ c0 p', pre ++ [c] = c0 :: p' ∧
          isAlphaB c0 = true) →
        gsLoop (pre ++ c :: cs) (pre.length + 1) cs = .ok (s, r2) →
        s = [] ∨ ((∀ c ∈ s, schemeCharB c = true) ∧
          ∃ c s', s = c :: s' ∧ isAlphaB c = true) := by
      intro hch hhead hg
      have horig : pre ++ c :: cs = (pre ++ [c]) ++ cs := by simp
      have hlen : pre.length + 1 = (pre ++ [c]).length := by simp
      rw [horig, hlen] at hg
      refine ih (pre ++ [c]) s r2 ?_ hhead hg
      intro d hd
      rcases List.mem_append.mp hd with hd | hd
      · exact hpre d hd
      · simp only [List.mem_singleton] at hd
        subst hd; exact hch
    by_cases ha : isAlphaB c = true
    · rw [gsLoop, if_pos ha] at h
      refine hrec (hch_of (Or.inl ha)) ?_ h
      intro _
      cases hp : pre with
      | nil => exact ⟨c, [], by simp [hp], ha⟩
      | cons p0 p' =>
        obtain ⟨c0, q, hcq, hal⟩ := hne (by simp [hp])
        rw [hp] at hcq
        exact ⟨c0, q ++ [c], by simp [hcq], hal⟩
    · by_cases hd : isDigitB c = true ∨ c = ch '+' ∨ c = ch '-' ∨ c = ch '.'
      · rw [gsLoop, if_neg ha, if_pos (by simpa using hd)] at h
        by_cases hi : pre.length = 0
        · rw [if_pos hi] at h
          injection h with h
          injection h with h1 _
          exact Or.inl h1.symm
        · rw [if_neg hi] at h
          have hpne : pre ≠ [] := by
            intro hx; exact hi (by simp [hx])
          obtain ⟨c0, q, hcq, hal⟩ := hne hpne
          refine hrec (hch_of (Or.inr hd)) ?_ h
          intro _
          rw [hcq]
          exact ⟨c0, q ++ [c], by simp, hal⟩
      · by_cases hcol : c = ch ':'
        · rw [gsLoop, if_neg ha, if_neg (by simpa using hd), if_pos hcol] at h
          by_cases hi : pre.length = 0
          · rw [if_pos hi] at h
            cases h
          · rw [if_neg hi] at h
            injection h with h
            injection h with h1 _
            have hs : s = pre := h1.symm.trans (List.take_left pre (c :: cs))
            have hpne : pre ≠ [] := fun hx => hi (by simp [hx])
            rw [hs]
            exact Or.inr ⟨hpre, hne hpne⟩
        · rw [gsLoop, if_neg ha, if_neg (by simpa using hd), if_neg hcol] at h
          injection h with h
          injection h with h1 _
          exact Or.inl h1.symm

set_option maxRecDepth 10000 in
theorem lower_schemeChar : ∀ c : Byte,
    schemeCharB c = true → schemeCharB (lowerByte c) = true := by decide

set_option maxRecDepth 10000 in
theorem lower_alpha : ∀ c : Byte,
    isAlphaB c = true → isAlphaB (lowerByte c) = true := by decide

set_option maxRecDepth 10000 in
theorem lowerByte_idem : ∀ c : Byte,
    lowerByte (lowerByte c) = lowerByte c := by decide

theorem asciiLower_idem (s : Str) :
    asciiLower (asciiLower s) = asciiLower s := by
  have hf : lowerByte ∘ lowerByte = lowerByte := funext lowerByte_idem
  rw [asciiLower, asciiLower, List.map_map, hf]

theorem schemeOK_of_getScheme (t scheme0 rest0 : Str)
    (h : getSchemeGo t = .ok (scheme0, rest0)) :
    SchemeOK (asciiLower scheme0) := by
  unfold getSchemeGo at h
  have h2 := gsLoop_out t [] scheme0 rest0 (by simp)
    (fun hx => absurd rfl hx) (by simpa using h)
  rcases h2 with h0 | ⟨h1, c, s', hcs, hal⟩
  · subst h0; exact Or.inl rfl
  · right
    refine ⟨?_, ?_, asciiLower_idem scheme0⟩
    · intro d hd
      rw [asciiLower] at hd
      obtain ⟨e, he, rfl⟩ := List.mem_map.mp hd
      exact lower_schemeChar e (h1 e he)
    · exact ⟨lowerByte c, asciiLower s', by simp [hcs, asciiLower],
        lower_alpha c hal⟩

theorem parseInner_schemeOK (t : Str) (u : GoURL)
    (hu : parseInner t = .ok u) : SchemeOK u.scheme := by
  unfold parseInner at hu
  by_cases h1 : containsCTL t = true
  · rw [if_pos h1] at hu; cases hu
  · rw [if_neg h1] at hu
    by_cases h2 : t = [ch '*']
    · rw [if_pos h2] at hu
      injection hu with hu
      rw [← hu]
      exact Or.inl rfl
    · rw [if_neg h2] at hu
      cases hg : getSchemeGo t with
      | error e => rw [hg] at hu; cases hu
      | ok p =>
        obtain ⟨scheme0, rest0⟩ := p
        rw [hg] at hu
        have hOK := schemeOK_of_getScheme t scheme0 rest0 hg
        simp only [] at hu
        repeat' split at hu
        all_goals cases hu
        all_goals exact hOK

theorem parse_schemeOK (t : Str) (u : GoURL) (hu : goParseURL t = .ok u) :
    SchemeOK u.scheme := by
  unfold goParseURL at hu
  dsimp only at hu
  cases hpi : parseInner (cutByte t (ch '#')).1 with
  | error e => rw [hpi] at hu; cases hu
  | ok u0 =>
    rw [hpi] at hu
    dsimp only at hu
    have h0 := parseInner_schemeOK _ u0 hpi
    by_cases hf : (cutByte t (ch '#')).2 = []
    · rw [if_pos hf] at hu; injection hu with hu; rw [← hu]; exact h0
    · rw [if_neg hf] at hu
      cases hun : unescape (cutByte t (ch '#')).2 .fragment with
      | error e => rw [hun] at hu; cases hu
      | ok f => rw [hun] at hu; injection hu with hu; rw [← hu]; exact h0

/-! ## Claim C6: string-splitting facts -/

set_option maxRecDepth 100000

theorem cutByte_not_mem {b : Byte} : ∀ {s : Str}, b ∉ s →
    cutByte s b = (s, []) := by
  intro s
  induction s with
  | nil => intro _; rfl
  | cons c r ih =>
    intro h
    simp only [List.mem_cons, not_or] at h
    rw [cutByte, if_neg (fun hx => h.1 hx.symm)]
    rw [ih h.2]

theorem indexOf?_eq_none {b : Byte} {l : Str} (h : b ∉ l) :
    l.indexOf? b = none := by
  rw [List.indexOf?]
  rw [List.findIdx?_eq_none_iff]
  intro x hx
  simp only [beq_eq_false_iff_ne, ne_eq]
  intro he
  exact h (he ▸ hx)

theorem lastIdxOfByte_not_mem {b : Byte} {s : Str} (h : b ∉ s) :
    lastIdxOfByte s b = none := by
  rw [lastIdxOfByte, indexOf?_eq_none (by simpa using h)]

theorem idxOfSeq_slash (y : Str) : ∀ (x : Str), ch '/' ∉ x →
    idxOfSeq (x ++ ch '/' :: y) [ch '/'] = some x.length := by
  intro x
  induction x with
  | nil =>
    intro _
    rw [List.nil_append, idxOfSeq]
    rw [if_pos (by simp [List.isPrefixOf])]
    rfl
  | cons c x' ih =>
    intro h
    simp only [List.mem_cons, not_or] at h
    rw [List.cons_append, idxOfSeq]
    rw [if_neg (by
      simp only [List.isPrefixOf, Bool.and_eq_true, beq_iff_eq]
      intro hx
      exact h.1 hx.1)]
    rw [ih h.2]
    rfl

theorem not_mem_escapedPath (scheme host P : Str) (hstar : P ≠ [ch '*'])
    (b : Byte)
    (h1 : b ∉ [ch '!', ch '$', ch '&', ch '\'', ch '(', ch ')', ch '*',
      ch '+', ch ',', ch ';', ch '=', ch ':', ch '@', ch '[', ch ']',
      ch '%'])
    (h2 : shouldEscape b .path = true) (h3 : b ≠ ch '%')
    (h4 : ∀ n : Fin 16, b ≠ hexUp n.val) :
    b ∉ escapedPath (mkRewriteURL scheme host P) := by
  intro hb
  rcases escapedPath_mem scheme host P hstar b hb with (hw | hne) | h | ⟨n, h⟩
  · exact h1 hw
  · rw [h2] at hne; cases hne
  · exact h3 h
  · exact h4 n h

set_option maxRecDepth 10000 in
theorem path_ok_no_ctl : ∀ b : Byte,
    (b ∈ [ch '!', ch '$', ch '&', ch '\'', ch '(', ch ')', ch '*', ch '+',
      ch ',', ch ';', ch '=', ch ':', ch '@', ch '[', ch ']', ch '%'] ∨
      shouldEscape b .path = false) → ¬(b.val < 32 ∨ b.val = 127) := by
  decide

theorem escapedPath_no_ctl (scheme host P : Str) (hstar : P ≠ [ch '*'])
    (b : Byte) (hb : b ∈ escapedPath (mkRewriteURL scheme host P)) :
    ¬(b.val < 32 ∨ b.val = 127) := by
  rcases escapedPath_mem scheme host P hstar b hb with hw | h | ⟨n, h⟩
  · exact path_ok_no_ctl b hw
  · subst h; decide
  · subst h; exact hexUp_no_ctl n

set_option maxRecDepth 10000 in
theorem schemeChar_no_ctl : ∀ c : Byte, schemeCharB c = true →
    ¬(c.val < 32 ∨ c.val = 127) := by decide

set_option maxRecDepth 10000 in
theorem schemeChar_ne_hash : ∀ c : Byte, schemeCharB c = true →
    c ≠ ch '#' := by decide

set_option maxRecDepth 10000 in
theorem schemeChar_ne_qmark : ∀ c : Byte, schemeCharB c = true →
    c ≠ ch '?' := by decide

theorem hash_not_mem_eh (host : Str) : ch '#' ∉ escapeStr host .host :=
  not_mem_escape (by decide) host _ (by decide) (by decide) (by decide)

theorem qmark_not_mem_eh (host : Str) : ch '?' ∉ escapeStr host .host :=
  not_mem_escape (by decide) host _ (by decide) (by decide) (by decide)

theorem slash_not_mem_eh (host : Str) : ch '/' ∉ escapeStr host .host :=
  not_mem_escape (by decide) host _ (by decide) (by decide) (by decide)

theorem at_not_mem_eh (host : Str) : ch '@' ∉ escapeStr host .host :=
  not_mem_escape (by decide) host _ (by decide) (by decide) (by decide)

theorem eh_no_ctl (host : Str) (b : Byte) (hb : b ∈ escapeStr host .host) :
    ¬(b.val < 32 ∨ b.val = 127) :=
  escape_no_ctl (by decide) (by decide) host b hb

theorem hash_not_mem_escapedPath (scheme host P : Str) (hstar : P ≠ [ch '*']) :
    ch '#' ∉ escapedPath (mkRewriteURL scheme host P) :=
  not_mem_escapedPath scheme host P hstar _ (by decide) (by decide)
    (by decide) (by decide)

theorem qmark_not_mem_escapedPath (scheme host P : Str)
    (hstar : P ≠ [ch '*']) :
    ch '?' ∉ escapedPath (mkRewriteURL scheme host P) :=
  not_mem_escapedPath scheme host P hstar _ (by decide) (by decide)
    (by decide) (by decide)

theorem escapedPath_second (scheme host P : Str) (hstar : P ≠ [ch '*'])
    (t0 : Str) (hPt : P = ch '/' :: t0)
    (hP2 : ∀ b t1, P = ch '/' :: b :: t1 → b ≠ ch '/') :
    ∀ b t2, escapedPath (mkRewriteURL scheme host P) = ch '/' :: b :: t2 →
      b ≠ ch '/' := by
  intro b t2 hb
  revert hb
  unfold escapedPath mkRewriteURL
  by_cases hcond : P ≠ [] ∧ validEncoded P .path = true ∧
      unescape P .path = .ok P
  · rw [if_pos hcond]
    intro hb
    exact hP2 _ _ hb
  · rw [if_neg hcond, if_neg hstar]
    subst hPt
    cases t0 with
    | nil =>
      intro hb
      rw [escapeStr, escapeStr,
        show encByte (ch '/') .path = [ch '/'] from by decide] at hb
      cases hb
    | cons b0 t1 =>
      intro hb
      rw [escapeStr, show encByte (ch '/') .path = [ch '/'] from by decide,
        escapeStr] at hb
      have hb0 : b0 ≠ ch '/' := hP2 b0 t1 rfl
      by_cases hesc : shouldEscape b0 .path = true
      · rw [show encByte b0 .path =
            [ch '%', hexUp (b0.val / 16), hexUp (b0.val % 16)] from by
          simp [encByte, hesc]] at hb
        simp only [List.cons_append, List.nil_append, List.cons.injEq] at hb
        intro hbad
        rw [hbad] at hb
        exact absurd hb.2.1.symm (by decide)
      · rw [show encByte b0 .path = [b0] from by simp [encByte, hesc]] at hb
        simp only [List.cons_append, List.nil_append, List.cons.injEq] at hb
        intro hbad
        rw [hbad] at hb
        exact hb0 hb.2.1

theorem qsplit_reduce (r : Str) (hq : ch '?' ∉ r) :
    (if r.getLast? = some (ch '?') ∧
        ¬seqContains r.dropLast [ch '?'] = true then
      (r.dropLast, true, ([] : Str))
    else ((cutByte r (ch '?')).1, false, (cutByte r (ch '?')).2)) =
    (r, false, []) := by
  rw [if_neg (fun hx => absurd (List.mem_of_mem_getLast? hx.1) hq),
    cutByte_not_mem hq]

theorem parseAuthority_eh (host : Str)
    (hH : parseHost (escapeStr host .host) = .ok host) :
    parseAuthority (escapeStr host .host) = .ok (none, host) := by
  unfold parseAuthority
  rw [lastIdxOfByte_not_mem (at_not_mem_eh host)]
  dsimp only
  rw [hH]

theorem parseInner_mkRewrite (scheme host P : Str)
    (hsch : SchemeOK scheme)
    (hH : parseHost (escapeStr host .host) = .ok host)
    (t0 : Str) (hPt : P = ch '/' :: t0)
    (hP2 : ∀ b t1, P = ch '/' :: b :: t1 → b ≠ ch '/')
    (hstar : P ≠ [ch '*']) :
    ∃ rp, parseInner (urlString (mkRewriteURL scheme host P)) =
      .ok { scheme := scheme, host := host, path := P, rawPath := rp } := by
  obtain ⟨t', hEP⟩ := escapedPath_head scheme host P t0 hPt
  have hunesc := escapedPath_unescape scheme host P hstar
  have hsp : setPathParts (escapedPath (mkRewriteURL scheme host P)) =
      .ok (P, if escapeStr P .path = escapedPath (mkRewriteURL scheme host P)
        then [] else escapedPath (mkRewriteURL scheme host P)) := by
    rw [setPathParts, hunesc]
  have hstr := urlString_mk scheme host P ⟨t', hEP⟩
  have hEPctl := escapedPath_no_ctl scheme host P hstar
  have hEPq := qmark_not_mem_escapedPath scheme host P hstar
  have hEP2 := escapedPath_second scheme host P hstar t0 hPt hP2
  have hdslash : List.isPrefixOf (gostr "//")
      (escapedPath (mkRewriteURL scheme host P)) = false := by
    rw [hEP]
    cases t' with
    | nil => decide
    | cons b t2 =>
      have hb := hEP2 b t2 hEP
      have hb' : (ch '/' == b) = false :=
        beq_eq_false_iff_ne.mpr (fun hx => hb hx.symm)
      simp only [show gostr "//" = [ch '/', ch '/'] from rfl,
        List.isPrefixOf, hb', Bool.and_false, Bool.false_and, Bool.and_self]
      simp
      exact fun _ hx => hb hx.symm
  rw [hEP] at hEPq hsp hEPctl hdslash
  have hpa := parseAuthority_eh host hH
  have hq3 : ch '?' ∉ ch '/' :: ch '/' ::
      (escapeStr host .host ++ (ch '/' :: t')) := by
    intro hx
    simp only [List.mem_cons, List.mem_append] at hx
    rcases hx with hx | hx | hx | hx | hx
    · exact absurd hx (by decide)
    · exact absurd hx (by decide)
    · exact qmark_not_mem_eh host hx
    · exact absurd hx (by decide)
    · exact hEPq (List.mem_cons_of_mem _ hx)
  have h2slash : List.isPrefixOf (gostr "//") (ch '/' :: ch '/' ::
      (escapeStr host .host ++ (ch '/' :: t'))) = true := by
    rw [show gostr "//" = [ch '/', ch '/'] from rfl]
    simp [List.isPrefixOf]
  have hctlR : containsCTL (ch '/' :: ch '/' ::
      (escapeStr host .host ++ (ch '/' :: t'))) = false := by
    rw [containsCTL, List.any_eq_false]
    intro b hb
    simp only [List.mem_cons, List.mem_append] at hb
    rcases hb with rfl | rfl | hb | rfl | hb
    · decide
    · decide
    · simpa using eh_no_ctl host b hb
    · decide
    · simpa using hEPctl b (List.mem_cons_of_mem _ hb)
  rcases hsch with hs0 | ⟨hs1, ⟨c0, s0', hs2, hs3⟩, hs4⟩
  · subst hs0
    by_cases hh : host = []
    · -- scheme = [], host = []: the string is just the escaped path
      subst hh
      have hsEP : urlString (mkRewriteURL [] [] P) = ch '/' :: t' := by
        rw [hstr, hEP]; simp
      refine ⟨if escapeStr P .path = ch '/' :: t'
        then [] else ch '/' :: t', ?_⟩
      have hctl : containsCTL (ch '/' :: t') = false := by
        rw [containsCTL, List.any_eq_false]
        intro b hb
        simpa using hEPctl b hb
      rw [hsEP]
      rw [parseInner.eq_def]
      rw [if_neg (by simp [hctl])]
      rw [if_neg (by
        intro hx
        injection hx with h1 h2
        exact absurd h1 (by decide))]
      rw [getSchemeGo_slash]
      dsimp only
      rw [qsplit_reduce _ hEPq]
      dsimp only
      rw [if_neg (fun hx => hx.1 rfl)]
      rw [if_neg (fun hx => hx.1 rfl)]
      rw [if_neg (fun hx => absurd hx.2 (by simp [hdslash]))]
      rw [hsp]
      dsimp only
      simp [asciiLower]
    · -- scheme = [], host ≠ []: "//" ++ escaped host ++ escaped path
      have h3slash : ¬ List.isPrefixOf (gostr "///") (ch '/' :: ch '/' ::
          (escapeStr host .host ++ (ch '/' :: t'))) = true := by
        rw [show gostr "///" = [ch '/', ch '/', ch '/'] from rfl]
        cases he : escapeStr host .host with
        | nil => exact absurd he (@escape_ne_nil Enc.host host hh)
        | cons e0 er =>
          have he0 : e0 ≠ ch '/' := fun hx =>
            slash_not_mem_eh host (by rw [he, hx]; exact List.mem_cons_self _ _)
          intro hx
          rw [List.cons_append] at hx
          simp only [List.isPrefixOf, Bool.and_eq_true, beq_iff_eq,
            beq_self_eq_true, true_and, and_true] at hx
          exact he0 hx.symm
      have hsEP : urlString (mkRewriteURL [] host P) =
          ch '/' :: ch '/' :: (escapeStr host .host ++ (ch '/' :: t')) := by
        rw [hstr, hEP, show gostr "//" = [ch '/', ch '/'] from rfl]
        simp [hh]
      refine ⟨if escapeStr P .path = ch '/' :: t'
        then [] else ch '/' :: t', ?_⟩
      rw [hsEP]
      rw [parseInner.eq_def]
      rw [if_neg (show ¬ containsCTL (ch '/' :: ch '/' ::
          (escapeStr host .host ++ (ch '/' :: t'))) = true from by
        simp [hctlR])]
      rw [if_neg (show ch '/' :: ch '/' ::
          (escapeStr host .host ++ (ch '/' :: t')) ≠ [ch '*'] from by
        intro hx
        injection hx with h1 h2
        exact absurd h1 (by decide))]
      rw [getSchemeGo_slash]
      dsimp only
      rw [qsplit_reduce _ hq3]
      dsimp only
      rw [if_neg (fun hx => hx.1 rfl)]
      rw [if_neg (fun hx => hx.1 rfl)]
      rw [if_pos (show (asciiLower [] ≠ [] ∨
          ¬ List.isPrefixOf (gostr "///") (ch '/' :: ch '/' ::
            (escapeStr host .host ++ (ch '/' :: t'))) = true) ∧
          List.isPrefixOf (gostr "//") (ch '/' :: ch '/' ::
            (escapeStr host .host ++ (ch '/' :: t'))) = true from
        ⟨Or.inr h3slash, h2slash⟩)]
      rw [show (ch '/' :: ch '/' ::
          (escapeStr host .host ++ (ch '/' :: t'))).drop 2 =
          escapeStr host .host ++ (ch '/' :: t') from rfl]
      rw [idxOfSeq_slash t' (escapeStr host .host) (slash_not_mem_eh host)]
      dsimp only
      rw [List.take_left, List.drop_left]
      rw [hpa]
      dsimp only
      rw [hsp]
      dsimp only
      simp [asciiLower]
  · -- scheme ≠ []
    have hschne : scheme ≠ [] := by
      rw [hs2]; exact List.cons_ne_nil _ _
    have hPne : P ≠ [] := by
      rw [hPt]; exact List.cons_ne_nil _ _
    have hehif : (if host ≠ [] then escapeStr host .host else []) =
        escapeStr host .host := by
      by_cases hh : host = []
      · rw [if_neg (show ¬ host ≠ [] from by simp [hh]), hh]
        rfl
      · rw [if_pos hh]
    have hsEP : urlString (mkRewriteURL scheme host P) =
        scheme ++ ch ':' :: (ch '/' :: ch '/' ::
          (escapeStr host .host ++ (ch '/' :: t'))) := by
      rw [hstr, hEP, hehif, show gostr "//" = [ch '/', ch '/'] from rfl]
      simp [hschne, hPne]
    have hctlS : containsCTL (scheme ++ ch ':' :: (ch '/' :: ch '/' ::
        (escapeStr host .host ++ (ch '/' :: t')))) = false := by
      rw [containsCTL, List.any_eq_false]
      intro b hb
      rcases List.mem_append.mp hb with hb | hb
      · simpa using schemeChar_no_ctl b (hs1 b hb)
      · simp only [List.mem_cons, List.mem_append] at hb
        rcases hb with rfl | rfl | rfl | hb | rfl | hb
        · decide
        · decide
        · decide
        · simpa using eh_no_ctl host b hb
        · decide
        · simpa using hEPctl b (List.mem_cons_of_mem _ hb)
    have hSstar : scheme ++ ch ':' :: (ch '/' :: ch '/' ::
        (escapeStr host .host ++ (ch '/' :: t'))) ≠ [ch '*'] := by
      rw [hs2, List.cons_append]
      intro hx
      injection hx with h1 h2
      exact absurd h2 (by simp)
    refine ⟨if escapeStr P .path = ch '/' :: t'
      then [] else ch '/' :: t', ?_⟩
    rw [hsEP]
    rw [parseInner.eq_def]
    rw [if_neg (show ¬ containsCTL (scheme ++ ch ':' :: (ch '/' :: ch '/' ::
        (escapeStr host .host ++ (ch '/' :: t')))) = true from by
      simp [hctlS])]
    rw [if_neg hSstar]
    rw [getSchemeGo_app scheme _ hs1 ⟨c0, s0', hs2, hs3⟩]
    dsimp only
    rw [hs4]
    rw [qsplit_reduce _ hq3]
    dsimp only
    rw [if_neg (fun hx => hx.1 rfl)]
    rw [if_neg (fun hx => hx.1 rfl)]
    rw [if_pos (show (scheme ≠ [] ∨
        ¬ List.isPrefixOf (gostr "///") (ch '/' :: ch '/' ::
          (escapeStr host .host ++ (ch '/' :: t'))) = true) ∧
        List.isPrefixOf (gostr "//") (ch '/' :: ch '/' ::
          (escapeStr host .host ++ (ch '/' :: t'))) = true from
      ⟨Or.inl hschne, h2slash⟩)]
    rw [show (ch '/' :: ch '/' ::
        (escapeStr host .host ++ (ch '/' :: t'))).drop 2 =
        escapeStr host .host ++ (ch '/' :: t') from rfl]
    rw [idxOfSeq_slash t' (escapeStr host .host) (slash_not_mem_eh host)]
    dsimp only
    rw [List.take_left, List.drop_left]
    rw [hpa]
    dsimp only
    rw [hsp]

theorem parse_mkRewrite (scheme host P : Str)
    (hsch : SchemeOK scheme)
    (hH : parseHost (escapeStr host .host) = .ok host)
    (t0 : Str) (hPt : P = ch '/' :: t0)
    (hP2 : ∀ b t1, P = ch '/' :: b :: t1 → b ≠ ch '/')
    (hstar : P ≠ [ch '*']) :
    ∃ rp, goParseURL (urlString (mkRewriteURL scheme host P)) =
      .ok { scheme := scheme, host := host, path := P, rawPath := rp } := by
  obtain ⟨rp, hpi⟩ := parseInner_mkRewrite scheme host P hsch hH t0 hPt hP2 hstar
  refine ⟨rp, ?_⟩
  have hstr := urlString_mk scheme host P (escapedPath_head scheme host P t0 hPt)
  have hhash : ch '#' ∉ urlString (mkRewriteURL scheme host P) := by
    rw [hstr]
    intro hx
    rcases List.mem_append.mp hx with hx | hx
    · rcases List.mem_append.mp hx with hx | hx
      · by_cases hs : scheme ≠ []
        · rw [if_pos hs] at hx
          rcases List.mem_append.mp hx with hx | hx
          · rcases hsch with h0 | ⟨h1, _, _⟩
            · subst h0; cases hx
            · exact schemeChar_ne_hash _ (h1 _ hx) rfl
          · exact absurd (List.mem_singleton.mp hx) (by decide)
        · rw [if_neg hs] at hx; cases hx
      · by_cases h2 : scheme ≠ [] ∨ host ≠ []
        · rw [if_pos h2] at hx
          rcases List.mem_append.mp hx with hx | hx
          · by_cases h3 : host ≠ [] ∨ P ≠ []
            · rw [if_pos h3] at hx
              exact absurd hx (by decide)
            · rw [if_neg h3] at hx; cases hx
          · by_cases h4 : host ≠ []
            · rw [if_pos h4] at hx
              exact hash_not_mem_eh host hx
            · rw [if_neg h4] at hx; cases hx
        · rw [if_neg h2] at hx; cases hx
    · exact hash_not_mem_escapedPath scheme host P hstar hx
  rw [goParseURL]
  rw [cutByte_not_mem hhash]
  dsimp only
  rw [hpi]
  dsimp only
  rw [if_pos rfl]

/-! ## Claim C6: re-extracting the organization from the rebuilt path -/

theorem dropWhile_not_head {b : Byte} : ∀ {l : Str}, b ∉ l →
    l.dropWhile (· = b) = l := by
  intro l
  cases l with
  | nil => intro _; rfl
  | cons c r =>
    intro h
    simp only [List.mem_cons, not_or] at h
    rw [List.dropWhile_cons,
      if_neg (by simp; exact fun hx => h.1 hx.symm)]

theorem goSplit_not_mem {b : Byte} : ∀ {a : Str}, b ∉ a →
    goSplit a b = [a] := by
  intro a
  induction a with
  | nil => intro _; rfl
  | cons c r ih =>
    intro h
    simp only [List.mem_cons, not_or] at h
    show (if c = b then [] :: goSplit r b
      else match goSplit r b with
        | [] => [[c]]
        | h :: t => (c :: h) :: t) = [c :: r]
    rw [if_neg (fun hx => h.1 hx.symm), ih h.2]

theorem goSplit_append {b : Byte} : ∀ (a Y : Str), b ∉ a →
    goSplit (a ++ b :: Y) b = a :: goSplit Y b := by
  intro a
  induction a with
  | nil =>
    intro Y _
    show (if b = b then [] :: goSplit Y b
      else match goSplit Y b with
        | [] => [[b]]
        | h :: t => (b :: h) :: t) = [] :: goSplit Y b
    rw [if_pos rfl]
  | cons c r ih =>
    intro Y h
    simp only [List.mem_cons, not_or] at h
    rw [List.cons_append]
    show (if c = b then [] :: goSplit (r ++ b :: Y) b
      else match goSplit (r ++ b :: Y) b with
        | [] => [[c]]
        | h :: t => (c :: h) :: t) = (c :: r) :: goSplit Y b
    rw [if_neg (fun hx => h.1 hx.symm), ih Y h.2]

theorem goSplit_sep_not_mem {b : Byte} : ∀ (s : Str), ∀ x ∈ goSplit s b, b ∉ x := by
  intro s
  induction s with
  | nil =>
    intro x hx
    simp only [goSplit, List.mem_singleton] at hx
    subst hx
    exact List.not_mem_nil b
  | cons c r ih =>
    intro x hx
    by_cases hc : c = b
    · rw [show goSplit (c :: r) b = [] :: goSplit r b from by
        show (if c = b then [] :: goSplit r b
          else match goSplit r b with
            | [] => [[c]]
            | h :: t => (c :: h) :: t) = [] :: goSplit r b
        rw [if_pos hc]] at hx
      rcases List.mem_cons.mp hx with rfl | hx
      · exact List.not_mem_nil b
      · exact ih x hx
    · cases hg : goSplit r b with
      | nil =>
        rw [show goSplit (c :: r) b = [[c]] from by
          show (if c = b then [] :: goSplit r b
            else match goSplit r b with
              | [] => [[c]]
              | h :: t => (c :: h) :: t) = [[c]]
          rw [if_neg hc, hg]] at hx
        rcases List.mem_singleton.mp hx with rfl
        intro hm
        exact hc ((List.mem_singleton.mp hm).symm)
      | cons h0 t0 =>
        rw [show goSplit (c :: r) b = (c :: h0) :: t0 from by
          show (if c = b then [] :: goSplit r b
            else match goSplit r b with
              | [] => [[c]]
              | h :: t => (c :: h) :: t) = (c :: h0) :: t0
          rw [if_neg hc, hg]] at hx
        rcases List.mem_cons.mp hx with rfl | hx
        · intro hm
          rcases List.mem_cons.mp hm with hbc | hm
          · exact hc hbc.symm
          · exact ih h0 (by rw [hg]; exact List.mem_cons_self _ _) hm
        · exact ih x (by rw [hg]; exact List.mem_cons_of_mem _ hx)

theorem goTrim_slash_org (org name : Str) (horg : org ≠ [])
    (hns : ch '/' ∉ org) :
    (goSplit (goTrim (ch '/' :: (org ++ ch '/' :: name)) (ch '/'))
      (ch '/')).headD [] = org := by
  obtain ⟨o0, org2, rfl⟩ : ∃ o0 org2, org = o0 :: org2 := by
    cases org with
    | nil => exact absurd rfl horg
    | cons x xs => exact ⟨x, xs, rfl⟩
  have ho0 : o0 ≠ ch '/' := fun hx =>
    hns (by rw [hx]; exact List.mem_cons_self _ _)
  have hfront : (ch '/' :: ((o0 :: org2) ++ ch '/' :: name)).dropWhile
      (· = ch '/') = (o0 :: org2) ++ ch '/' :: name := by
    rw [List.dropWhile_cons, if_pos (by simp), List.cons_append,
      List.dropWhile_cons, if_neg (by simp [ho0]),
      ← List.cons_append]
  unfold goTrim
  rw [hfront]
  rw [show (o0 :: org2) ++ ch '/' :: name =
      ((o0 :: org2) ++ [ch '/']) ++ name from by simp]
  rw [List.reverse_append, List.dropWhile_append]
  by_cases hrt : (name.reverse.dropWhile (· = ch '/')).isEmpty = true
  · rw [if_pos hrt]
    rw [List.reverse_append, show ([ch '/'] : Str).reverse = [ch '/'] from rfl,
      List.singleton_append, List.dropWhile_cons, if_pos (by simp),
      dropWhile_not_head (show ch '/' ∉ (o0 :: org2).reverse from by
        rw [List.mem_reverse]; exact hns),
      List.reverse_reverse, goSplit_not_mem hns]
    rfl
  · rw [if_neg hrt]
    rw [List.reverse_append, List.reverse_reverse, List.append_assoc,
      List.singleton_append, goSplit_append _ _ hns]
    rfl

/-- C6 (amended).  `rewriteURL` (the Target Mapper) is idempotent for
every repository and every parseable target URL whose path has a
non-empty first slash-trimmed segment and whose host survives the
escape/re-parse round trip of `URL.String` / `url.Parse` (as every
ordinary host name does): applying `rewriteURL` to its own output with
the same repository yields the same destination URL; moreover the
destination parses back with the target's scheme and host preserved and
with path exactly `/{org}/{repo.name}`, where `org` is the first
segment of the target's slash-trimmed path.  Without the two side
conditions idempotence fails, see the counterexample. -/
theorem c6_map_target_idempotent (r : Repo) (tgt : Str) (u : GoURL)
    (hu : goParseURL tgt = .ok u)
    (horg : (goSplit (goTrim u.path (ch '/')) (ch '/')).headD [] ≠ [])
    (hH : parseHost (escapeStr u.host .host) = .ok u.host) :
    ∃ dst, rewriteURL r tgt = .ok dst ∧ rewriteURL r dst = .ok dst ∧
      ∃ v, goParseURL dst = .ok v ∧ v.scheme = u.scheme ∧ v.host = u.host ∧
        v.path = ch '/' ::
          ((goSplit (goTrim u.path (ch '/')) (ch '/')).headD [] ++
            ch '/' :: r.name) := by
  have hsch := parse_schemeOK tgt u hu
  have hslash : ch '/' ∉ (goSplit (goTrim u.path (ch '/')) (ch '/')).headD [] := by
    cases hg : goSplit (goTrim u.path (ch '/')) (ch '/') with
    | nil => rw [hg] at horg; exact absurd rfl horg
    | cons h0 t0 =>
      exact goSplit_sep_not_mem (goTrim u.path (ch '/')) h0
        (by rw [hg]; exact List.mem_cons_self _ _)
  have hP2 : ∀ b t1,
      ch '/' :: ((goSplit (goTrim u.path (ch '/')) (ch '/')).headD []
        ++ ch '/' :: r.name) = ch '/' :: b :: t1 → b ≠ ch '/' := by
    intro b t1 hx hb
    injection hx with _ h2
    cases hg : (goSplit (goTrim u.path (ch '/')) (ch '/')).headD [] with
    | nil => exact horg hg
    | cons o0 o2 =>
      rw [hg, List.cons_append] at h2
      injection h2 with h3 _
      exact hslash (by rw [hg, h3, hb]; exact List.mem_cons_self _ _)
  have hstar : ch '/' :: ((goSplit (goTrim u.path (ch '/')) (ch '/')).headD []
      ++ ch '/' :: r.name) ≠ [ch '*'] := by
    intro hx
    injection hx with h1 _
    exact absurd h1 (by decide)
  obtain ⟨rp, hparse⟩ := parse_mkRewrite u.scheme u.host
    (ch '/' :: ((goSplit (goTrim u.path (ch '/')) (ch '/')).headD []
      ++ ch '/' :: r.name)) hsch hH _ rfl hP2 hstar
  refine ⟨urlString (mkRewriteURL u.scheme u.host
      (ch '/' :: ((goSplit (goTrim u.path (ch '/')) (ch '/')).headD []
        ++ ch '/' :: r.name))), ?_, ?_, ?_⟩
  · unfold rewriteURL
    rw [hu]
    rfl
  · unfold rewriteURL
    rw [hparse]
    dsimp only
    rw [goTrim_slash_org _ r.name horg hslash]
    rfl
  · exact ⟨_, hparse, rfl, rfl, rfl⟩

/-- C6 (counterexample to unconditional idempotence): with repository
name `x`, the target `https://h` (empty path, hence an empty
organization segment) maps to `https://h//x`, which maps to the
different URL `https://h/x/x`; and the target `http://[v1%25é]/org`
(a zone-qualified IPv6-literal host whose raw bytes Go re-escapes into
a form its own parser rejects) maps to `http://[v1%25%C3%A9]/org/x`,
on which `rewriteURL` fails outright — applying the mapper to its own
output is not a fixed point in the first case and does not even
succeed in the second. -/
theorem c6_map_target_idempotent_cex :
    (rewriteURL ⟨gostr "x", gostr "u"⟩ (gostr "https://h") =
        .ok (gostr "https://h//x") ∧
      rewriteURL ⟨gostr "x", gostr "u"⟩ (gostr "https://h//x") =
        .ok (gostr "https://h/x/x")) ∧
    (rewriteURL ⟨gostr "x", gostr "u"⟩ (gostr "http://[v1%25é]/org") =
        .ok (gostr "http://[v1%25%C3%A9]/org/x") ∧
      rewriteURL ⟨gostr "x", gostr "u"⟩ (gostr "http://[v1%25%C3%A9]/org/x") =
        .error (gostr "failed to parse target URL: invalid URL escape %C3")) :=
  ⟨⟨rfl, rfl⟩, ⟨rfl, rfl⟩⟩

/-- Witness for C6 at a concrete one-segment target URL. -/
theorem c6_map_target_idempotent_w :
    ∃ dst, rewriteURL ⟨gostr "x", gostr "u"⟩ (gostr "https://h/org") =
        .ok dst ∧
      rewriteURL ⟨gostr "x", gostr "u"⟩ dst = .ok dst ∧
      ∃ v, goParseURL dst = .ok v ∧
        v.scheme = gostr "https" ∧ v.host = gostr "h" ∧
        v.path = ch '/' ::
          ((goSplit (goTrim (gostr "/org") (ch '/')) (ch '/')).headD [] ++
            ch '/' :: gostr "x") :=
  c6_map_target_idempotent ⟨gostr "x", gostr "u"⟩ (gostr "https://h/org")
    ⟨gostr "https", [], none, gostr "h", gostr "/org", [],
      false, false, [], [], []⟩
    (by rfl) (by decide) (by rfl)

end CopyGH
